import Mathlib

/-!
Verification of the URL collection pipeline in `main.py`
(class ClaudeCodeSDKCollector): URL normalization, fingerprinting,
duplicate detection, liveness validation, persistence, the fallback
candidate generator and the collection driver loop.

External collaborators (the Redis client, the `requests` HTTP client and
the Mersenne-Twister RNG of `random`) are modelled as oracles/parameters;
everything else is translated directly from the source.

The model of Python's `urllib.parse.urlparse` / `urlunparse` below follows
the CPython implementation (scheme split at the first `:` when the prefix
is a valid scheme, netloc after `//` up to the first of `/?#`, the
"Invalid IPv6 URL" ValueError on unbalanced brackets, fragment split at the
first `#`, query at the first `?`, and the params split at the first `;`
that follows the last `/` of the path, guarded by `scheme in uses_params`;
`urlunsplit` inserts `//` when the netloc is nonempty or the scheme is in
`uses_netloc` and the path does not already begin with `//`).  CPython's
stripping of leading C0-control/space characters and removal of tab/CR/LF
characters, the NFKC netloc check and the bracketed-host validation of the
host between `[` and `]` are not modelled (no claim concerns URLs
containing such characters); `str.lower` is modelled on its ASCII fragment
(Lean's `Char` case functions are ASCII-only), which agrees with Python on
every ASCII string.
-/

abbrev Chars := List Char

/-- ASCII lower-casing of one character, the fragment of Python's
`str.lower` relevant here. -/
def lowerChar : Char → Char
  | 'A' => 'a' | 'B' => 'b' | 'C' => 'c' | 'D' => 'd' | 'E' => 'e'
  | 'F' => 'f' | 'G' => 'g' | 'H' => 'h' | 'I' => 'i' | 'J' => 'j'
  | 'K' => 'k' | 'L' => 'l' | 'M' => 'm' | 'N' => 'n' | 'O' => 'o'
  | 'P' => 'p' | 'Q' => 'q' | 'R' => 'r' | 'S' => 's' | 'T' => 't'
  | 'U' => 'u' | 'V' => 'v' | 'W' => 'w' | 'X' => 'x' | 'Y' => 'y'
  | 'Z' => 'z'
  | c => c

def lowerL (l : Chars) : Chars := l.map lowerChar

/-- The characters that end the netloc in CPython's `urlsplit`
(`_splitnetloc` stops at the first of `/`, `?`, `#`). -/
def netlocDelim (c : Char) : Bool := c == '/' || c == '?' || c == '#'

/-- CPython `scheme_chars`: ASCII letters, digits and `+`, `-`, `.`. -/
def schemeChar (c : Char) : Bool :=
  c.isAlpha || c.isDigit || c == '+' || c == '-' || c == '.'

/-- Index of the first occurrence of a character, as Python `str.find`. -/
def findCharIdx (d : Char) : Chars → Option Nat
  | [] => none
  | c :: cs => if c = d then some 0 else (findCharIdx d cs).map (· + 1)

/-- Python `url.split(d, 1)` when `d` occurs, `(url, '')` otherwise
(the two cases coincide with this single function). -/
def splitFirst (d : Char) : Chars → Chars × Chars
  | [] => ([], [])
  | c :: cs =>
    if c = d then ([], cs)
    else
      let r := splitFirst d cs
      (c :: r.1, r.2)

/-- CPython `_splitnetloc`: netloc is everything up to the first delimiter. -/
def splitNetloc (s : Chars) : Chars × Chars :=
  (s.takeWhile (fun c => !netlocDelim c), s.dropWhile (fun c => !netlocDelim c))

/-- Python `url.find(d, j)`. -/
def findFrom (d : Char) (j : Nat) (l : Chars) : Option Nat :=
  (findCharIdx d (l.drop j)).map (j + ·)

/-- Python `url.rfind(d)` (only used under a guard that `d` occurs). -/
def lastIdxOf (d : Char) (l : Chars) : Nat :=
  match findCharIdx d l.reverse with
  | none => 0
  | some k => l.length - 1 - k

/-- CPython `_splitparams` combined with the `';' in url` guard of
`urlparse`: split params off the last path segment. -/
def splitParams (url : Chars) : Chars × Chars :=
  if url.elem ';' then
    if url.elem '/' then
      match findFrom ';' (lastIdxOf '/' url) url with
      | none => (url, [])
      | some i => (url.take i, url.drop (i + 1))
    else splitFirst ';' url
  else (url, [])

/-- The six components of CPython's `ParseResult`. -/
structure UrlParts where
  scheme : Chars
  netloc : Chars
  path : Chars
  params : Chars
  query : Chars
  fragment : Chars
deriving DecidableEq, Repr

/-- CPython scheme detection: the prefix before the first `:` is a scheme
when it is nonempty, starts with an ASCII letter and contains only scheme
characters; the scheme is lower-cased. -/
def splitScheme (s : Chars) : Chars × Chars :=
  match findCharIdx ':' s with
  | some i =>
    if 0 < i ∧ (s.headD ' ').isAlpha ∧ (s.take i).all schemeChar then
      (lowerL (s.take i), s.drop (i + 1))
    else ([], s)
  | none => ([], s)

/-- Model of CPython `urlsplit`: scheme, then netloc after `//` (raising
ValueError "Invalid IPv6 URL" on unbalanced square brackets), then the
fragment at the first `#`, then the query at the first `?`. -/
def urlsplitM (s : Chars) : Except String (Chars × Chars × Chars × Chars × Chars) :=
  let sc := splitScheme s
  if (sc.2.take 2) = ['/', '/'] then
    let nl := splitNetloc (sc.2.drop 2)
    if (nl.1.elem '[') != (nl.1.elem ']') then
      .error "Invalid IPv6 URL"
    else
      let fr := splitFirst '#' nl.2
      let qu := splitFirst '?' fr.1
      .ok (sc.1, nl.1, qu.1, qu.2, fr.2)
  else
    let fr := splitFirst '#' sc.2
    let qu := splitFirst '?' fr.1
    .ok (sc.1, [], qu.1, qu.2, fr.2)

/-- CPython `uses_params`: the schemes for which `urlparse` splits params. -/
def uses_params : List Chars :=
  [[], "ftp".data, "hdl".data, "prospero".data, "http".data, "imap".data,
   "https".data, "shttp".data, "rtsp".data, "rtsps".data, "rtspu".data,
   "sip".data, "sips".data, "mms".data, "sftp".data, "tel".data]

/-- CPython `uses_netloc`: the schemes for which `urlunsplit` inserts `//`. -/
def uses_netloc : List Chars :=
  [[], "ftp".data, "http".data, "gopher".data, "nntp".data, "telnet".data,
   "imap".data, "wais".data, "file".data, "mms".data, "https".data,
   "shttp".data, "snews".data, "prospero".data, "rtsp".data, "rtsps".data,
   "rtspu".data, "rsync".data, "svn".data, "svn+ssh".data, "sftp".data,
   "nfs".data, "git".data, "git+ssh".data, "ws".data, "wss".data]

/-- Model of CPython `urlparse`: `urlsplit` followed by the params split
(only for schemes in `uses_params`). -/
def urlparseM (s : Chars) : Except String UrlParts :=
  match urlsplitM s with
  | .error e => .error e
  | .ok (scheme, netloc, pathq, query, fragment) =>
    let pp := if scheme ∈ uses_params then splitParams pathq else (pathq, [])
    .ok ⟨scheme, netloc, pp.1, pp.2, query, fragment⟩

/-- Python `url = "%s;%s" % (url, params)` guarded by `if params:`
(the params re-join of `urlunparse`). -/
def joinParams (path params : Chars) : Chars :=
  if params = [] then path else path ++ ';' :: params

/-- Python `if url and url[:1] != '/': url = '/' + url` (the slash
adjustment inside the netloc branch of `urlunsplit`). -/
def slashAdjust (url0 : Chars) : Chars :=
  if url0 ≠ [] ∧ url0.headD ' ' ≠ '/' then '/' :: url0 else url0

/-- Model of CPython `urlunparse` / `urlunsplit`. -/
def urlunparseM (p : UrlParts) : Chars :=
  let url0 := joinParams p.path p.params
  let url1 :=
    if p.netloc ≠ [] ∨ (p.scheme ≠ [] ∧ p.scheme ∈ uses_netloc ∧ url0.take 2 ≠ ['/', '/']) then
      ('/' :: '/' :: p.netloc) ++ slashAdjust url0
    else url0
  let url2 := if p.scheme ≠ [] then p.scheme ++ ':' :: url1 else url1
  let url3 := if p.query ≠ [] then url2 ++ '?' :: p.query else url2
  if p.fragment ≠ [] then url3 ++ '#' :: p.fragment else url3

/-- Python `path.rstrip('/')`: remove every trailing slash. -/
def rstripSlash (l : Chars) : Chars :=
  (l.reverse.dropWhile (fun c => c == '/')).reverse

/-- The `www.`-stripping of `normalize_url` (applied to the lower-cased
netloc). -/
def stripWww (l : Chars) : Chars :=
  if l.take 4 = ['w', 'w', 'w', '.'] then l.drop 4 else l

def HTTPS : Chars := ['h', 't', 't', 'p', 's']

/-- The components rebuilt by `normalize_url` from a parse result: scheme
forced to https, netloc lower-cased with one leading `www.` stripped, all
trailing slashes removed from the path, params and query kept, fragment
dropped. -/
def normParts (p : UrlParts) : UrlParts :=
  ⟨HTTPS, stripWww (lowerL p.netloc), rstripSlash p.path, p.params, p.query, []⟩

/-- `ClaudeCodeSDKCollector.normalize_url` (main.py lines 74-106): returns
the normalized URL and the list of error strings appended to
`self.errors` by this call (empty on success; on a parse error the input
is returned unchanged and one diagnostic is recorded). -/
def normalize_url (url : String) : String × List String :=
  match urlparseM url.data with
  | .error e => (url, ["URL normalization error: " ++ e])
  | .ok p => (String.mk (urlunparseM (normParts p)), [])

/-- The string result of `normalize_url` (the value used by callers). -/
def normalizeStr (url : String) : String := (normalize_url url).1


/-!
Fingerprinting: `get_url_hash` (main.py lines 108-111) is
`hashlib.sha256(normalized.encode()).hexdigest()[:16]`.  SHA-256 is
implemented below over `Nat` with explicit reduction modulo 2^32
(FIPS 180-4); `str.encode()` is UTF-8.
-/

/-- UTF-8 encoding of one character (Python `str.encode()`). -/
def utf8Bytes (c : Char) : List Nat :=
  let n := c.toNat
  if n < 128 then [n]
  else if n < 2048 then [192 + n / 64, 128 + n % 64]
  else if n < 65536 then [224 + n / 4096, 128 + n / 64 % 64, 128 + n % 64]
  else [240 + n / 262144, 128 + n / 4096 % 64, 128 + n / 64 % 64, 128 + n % 64]

/-- Byte encoding of a string, as Python `s.encode()`. -/
def strBytes (s : String) : List Nat := s.data.flatMap utf8Bytes

def w32 (n : Nat) : Nat := n % 4294967296

/-- Right rotation of a 32-bit word. -/
def rotr32 (x n : Nat) : Nat := w32 ((x >>> n) + (x % 2 ^ n) * 2 ^ (32 - n))

def shaCh (e f g : Nat) : Nat := (e &&& f) ^^^ ((e ^^^ 4294967295) &&& g)

def shaMaj (a b c : Nat) : Nat := (a &&& b) ^^^ (a &&& c) ^^^ (b &&& c)

def bsig0 (x : Nat) : Nat := rotr32 x 2 ^^^ rotr32 x 13 ^^^ rotr32 x 22

def bsig1 (x : Nat) : Nat := rotr32 x 6 ^^^ rotr32 x 11 ^^^ rotr32 x 25

def ssig0 (x : Nat) : Nat := rotr32 x 7 ^^^ rotr32 x 18 ^^^ (x >>> 3)

def ssig1 (x : Nat) : Nat := rotr32 x 17 ^^^ rotr32 x 19 ^^^ (x >>> 10)

/-- The 64 SHA-256 round constants. -/
def shaK : List Nat :=
  [1116352408, 1899447441, 3049323471, 3921009573,
   961987163, 1508970993, 2453635748, 2870763221,
   3624381080, 310598401, 607225278, 1426881987,
   1925078388, 2162078206, 2614888103, 3248222580,
   3835390401, 4022224774, 264347078, 604807628,
   770255983, 1249150122, 1555081692, 1996064986,
   2554220882, 2821834349, 2952996808, 3210313671,
   3336571891, 3584528711, 113926993, 338241895,
   666307205, 773529912, 1294757372, 1396182291,
   1695183700, 1986661051, 2177026350, 2456956037,
   2730485921, 2820302411, 3259730800, 3345764771,
   3516065817, 3600352804, 4094571909, 275423344,
   430227734, 506948616, 659060556, 883997877,
   958139571, 1322822218, 1537002063, 1747873779,
   1955562222, 2024104815, 2227730452, 2361852424,
   2428436474, 2756734187, 3204031479, 3329325298]

/-- Working state of SHA-256: eight 32-bit words. -/
structure Digest where
  h0 : Nat
  h1 : Nat
  h2 : Nat
  h3 : Nat
  h4 : Nat
  h5 : Nat
  h6 : Nat
  h7 : Nat
deriving DecidableEq, Repr

def shaInit : Digest :=
  ⟨1779033703, 3144134277, 1013904242, 2773480762,
   1359893119, 2600822924, 528734635, 1541459225⟩

/-- Big-endian 32-bit word at index `i` of a 64-byte block. -/
def wordAt (block : List Nat) (i : Nat) : Nat :=
  block.getD (4 * i) 0 * 16777216 + block.getD (4 * i + 1) 0 * 65536 +
    block.getD (4 * i + 2) 0 * 256 + block.getD (4 * i + 3) 0

/-- The 64-entry message schedule of one block. -/
def schedule (block : List Nat) : Array Nat :=
  let w0 := (List.range 16).foldl (fun a i => a.push (wordAt block i)) #[]
  (List.range 48).foldl
    (fun w t =>
      w.push (w32 (ssig1 (w.getD (t + 14) 0) + w.getD (t + 9) 0 +
        ssig0 (w.getD (t + 1) 0) + w.getD t 0)))
    w0

def compressRound (wt kt : Nat) (d : Digest) : Digest :=
  let t1 := w32 (d.h7 + bsig1 d.h4 + shaCh d.h4 d.h5 d.h6 + kt + wt)
  let t2 := w32 (bsig0 d.h0 + shaMaj d.h0 d.h1 d.h2)
  ⟨w32 (t1 + t2), d.h0, d.h1, d.h2, w32 (d.h3 + t1), d.h4, d.h5, d.h6⟩

/-- One SHA-256 compression of a 64-byte block. -/
def compress (d : Digest) (block : List Nat) : Digest :=
  let w := schedule block
  let r := (List.range 64).foldl
    (fun st t => compressRound (w.getD t 0) (shaK.getD t 0) st) d
  ⟨w32 (d.h0 + r.h0), w32 (d.h1 + r.h1), w32 (d.h2 + r.h2), w32 (d.h3 + r.h3),
   w32 (d.h4 + r.h4), w32 (d.h5 + r.h5), w32 (d.h6 + r.h6), w32 (d.h7 + r.h7)⟩

/-- Big-endian 8-byte encoding (for the length field of the padding). -/
def be8 (n : Nat) : List Nat :=
  [n / 72057594037927936 % 256, n / 281474976710656 % 256, n / 1099511627776 % 256,
   n / 4294967296 % 256, n / 16777216 % 256, n / 65536 % 256, n / 256 % 256, n % 256]

/-- SHA-256 padding: append 0x80, zeros to 56 mod 64, then the bit length. -/
def sha256pad (msg : List Nat) : List Nat :=
  let z := (120 - (msg.length + 1) % 64) % 64
  msg ++ 128 :: List.replicate z 0 ++ be8 (msg.length * 8)

def sha256Blocks : Nat → List Nat → Digest → Digest
  | 0, _, d => d
  | n + 1, l, d => sha256Blocks n (l.drop 64) (compress d (l.take 64))

def sha256 (msg : List Nat) : Digest :=
  let padded := sha256pad msg
  sha256Blocks (padded.length / 64) padded shaInit

/-- Big-endian 4-byte encoding of a 32-bit word. -/
def be4 (n : Nat) : List Nat := [n / 16777216 % 256, n / 65536 % 256, n / 256 % 256, n % 256]

def hexDigit (n : Nat) : Char :=
  if n < 10 then Char.ofNat (48 + n) else if n < 16 then Char.ofNat (87 + n) else '0'

/-- Two lowercase hex characters of one byte (`hexdigest` format). -/
def hexPair (b : Nat) : Chars := [hexDigit (b / 16 % 16), hexDigit (b % 16)]

/-- The 64 characters of `hashlib.sha256(bytes).hexdigest()`. -/
def sha256hexChars (msg : List Nat) : Chars :=
  let d := sha256 msg
  (be4 d.h0 ++ be4 d.h1 ++ be4 d.h2 ++ be4 d.h3 ++
   be4 d.h4 ++ be4 d.h5 ++ be4 d.h6 ++ be4 d.h7).flatMap hexPair

/-- `ClaudeCodeSDKCollector.get_url_hash` (main.py lines 108-111):
the first 16 hex characters of the SHA-256 of the normalized URL. -/
def get_url_hash (url : String) : String :=
  String.mk ((sha256hexChars (strBytes (normalizeStr url))).take 16)

/-!
Duplicate Oracle: `is_duplicate` (main.py lines 113-128).  The Redis
client is an external collaborator, modelled as a pair of possibly-failing
query functions.  `redis.exists` returns a count (an int, used for its
truthiness); `sismember` returns a bool.  The function returns the
disjunction of the two signals; any raised storage error is caught,
recorded in `self.errors`, and turns the answer into False.  The two
internal `normalize_url` calls (one inside `get_url_hash`) may themselves
append diagnostics, which is modelled faithfully.
-/

structure DupClient where
  existsKey : String → Except String Nat
  sismember : String → String → Except String Bool

/-- `ClaudeCodeSDKCollector.is_duplicate`: bool result together with the
full updated error list. -/
def is_duplicate (cl : DupClient) (url : String) (errors : List String) :
    Bool × List String :=
  let errs1 := errors ++ (normalize_url url).2
  match cl.existsKey ("claude-sdk:url:" ++ get_url_hash url) with
  | .error e => (false, errs1 ++ ["Duplicate check error: " ++ e])
  | .ok n =>
    let errs2 := errs1 ++ (normalize_url url).2
    match cl.sismember "claude-sdk:urls" (normalizeStr url) with
    | .error e => (false, errs2 ++ ["Duplicate check error: " ++ e])
    | .ok b => (decide (n ≠ 0) || b, errs2)

/-!
Validator: `validate_url` (main.py lines 130-169).  The `requests` HTTP
client is an external collaborator modelled as two oracles (HEAD and GET
probes) returning a status code or failing with a timeout or another
transport error.  The returned trace lists the network calls issued, so
"accepted without any network call" is expressible.  An exception raised
by `urlparse` itself is caught by the generic handler and yields True.
-/

inductive NetErr where
  | timeout : NetErr
  | transport : String → NetErr
deriving DecidableEq, Repr

inductive NetCall where
  | headCall : String → NetCall
  | getCall : String → NetCall
deriving DecidableEq, Repr

structure Net where
  headReq : String → Except NetErr Nat
  getReq : String → Except NetErr Nat

/-- The fixed allowlist `trusted_domains` of `validate_url`. -/
def trusted_domains : List String :=
  ["anthropic.com", "claude.ai", "docs.anthropic.com",
   "github.com", "medium.com", "dev.to", "hackernoon.com",
   "stackoverflow.com", "reddit.com", "twitter.com",
   "youtube.com", "producthunt.com", "news.ycombinator.com"]

/-- Whether `n` occurs at the start of `h` (helper for the substring test). -/
def headMatch : Chars → Chars → Bool
  | [], _ => true
  | _ :: _, [] => false
  | a :: ns, b :: hs => a == b && headMatch ns hs

/-- Python `n in h` on strings: `n` occurs as a contiguous substring of `h`. -/
def containsSub (n : Chars) : Chars → Bool
  | [] => headMatch n []
  | c :: hs => headMatch n (c :: hs) || containsSub n hs

/-- Python `any(domain in parsed.netloc.lower() for domain in trusted_domains)`:
a substring test against the lower-cased netloc. -/
def trustedHit (netloc : Chars) : Bool :=
  trusted_domains.any (fun d => containsSub d.data (lowerL netloc))

/-- `ClaudeCodeSDKCollector.validate_url`: bool result plus the trace of
network probes issued. -/
def validate_url (net : Net) (url : String) : Bool × List NetCall :=
  match urlparseM url.data with
  | .error _ => (true, [])
  | .ok p =>
    if p.scheme = [] ∨ p.netloc = [] then (false, [])
    else if trustedHit p.netloc then (true, [])
    else
      match net.headReq url with
      | .error _ => (true, [NetCall.headCall url])
      | .ok s =>
        if s = 405 then
          match net.getReq url with
          | .error _ => (true, [NetCall.headCall url, NetCall.getCall url])
          | .ok s2 => (decide (s2 < 400), [NetCall.headCall url, NetCall.getCall url])
        else (decide (s < 400), [NetCall.headCall url])

/-!
Persistence Layer: `store_url` (main.py lines 171-201).  The Redis writes
are modelled as an oracle executing one operation at a time; the function
records the operations it attempted (in order), the updated error list,
the updated `self.new_urls_added` counter and the success flag.
-/

inductive RedisOp where
  | sadd : String → String → RedisOp
  | hset : String → List (String × String) → RedisOp
  | zadd : String → String → Nat → RedisOp
  | setKey : String → String → RedisOp
deriving DecidableEq, Repr

/-- Python dict assignment `d[k] = v` on an association list. -/
def dictSet (md : List (String × String)) (k v : String) : List (String × String) :=
  if md.any (fun kv => kv.1 = k) then
    md.map (fun kv => if kv.1 = k then (k, v) else kv)
  else md ++ [(k, v)]

def storeOp1 (url : String) : RedisOp :=
  RedisOp.sadd "claude-sdk:urls" (normalizeStr url)

def storeOp2 (url : String) (metadata : List (String × String)) (nowIso : String) : RedisOp :=
  RedisOp.hset ("claude-sdk:url:" ++ get_url_hash url ++ ":metadata")
    (dictSet (dictSet (dictSet metadata "url" (normalizeStr url)) "collected_at" nowIso)
      "hash" (get_url_hash url))

def storeOp3 (url : String) (nowTs : Nat) : RedisOp :=
  RedisOp.zadd "claude-sdk:urls:timeline" (get_url_hash url) nowTs

def storeOp4 (url : String) : RedisOp :=
  RedisOp.setKey ("claude-sdk:url:" ++ get_url_hash url) (normalizeStr url)

/-- The four writes of `store_url` in source order: CollectionSet `sadd`,
metadata `hset`, Timeline `zadd`, fingerprint-lookup `set`. -/
def storeOps (url : String) (metadata : List (String × String))
    (nowIso : String) (nowTs : Nat) : List RedisOp :=
  [storeOp1 url, storeOp2 url metadata nowIso, storeOp3 url nowTs, storeOp4 url]

/-- `ClaudeCodeSDKCollector.store_url`: result is (success flag, updated
error list, updated new-URL counter, trace of attempted Redis writes).
`datetime.utcnow()` is passed in as the pair `nowIso`/`nowTs`. -/
def store_url (exec : RedisOp → Except String Unit) (url : String)
    (metadata : List (String × String)) (nowIso : String) (nowTs : Nat)
    (errors : List String) (newUrlsAdded : Nat) :
    Bool × List String × Nat × List RedisOp :=
  let errs := errors ++ (normalize_url url).2 ++ (normalize_url url).2
  match exec (storeOp1 url) with
  | .error e => (false, errs ++ ["Storage error: " ++ e], newUrlsAdded, [storeOp1 url])
  | .ok _ =>
    match exec (storeOp2 url metadata nowIso) with
    | .error e => (false, errs ++ ["Storage error: " ++ e], newUrlsAdded,
        [storeOp1 url, storeOp2 url metadata nowIso])
    | .ok _ =>
      match exec (storeOp3 url nowTs) with
      | .error e => (false, errs ++ ["Storage error: " ++ e], newUrlsAdded,
          [storeOp1 url, storeOp2 url metadata nowIso, storeOp3 url nowTs])
      | .ok _ =>
        match exec (storeOp4 url) with
        | .error e => (false, errs ++ ["Storage error: " ++ e], newUrlsAdded,
            storeOps url metadata nowIso nowTs)
        | .ok _ => (true, errs, newUrlsAdded + 1, storeOps url metadata nowIso nowTs)

/-!
Candidate Source Adapter, fallback path: `search_web` (main.py lines
255-291).  When the primary DuckDuckGo scrape yields no results, a pool of
15 timestamp-parameterized URLs is built, `random.seed(timestamp)` is
called and `random.sample(pool, min(max_results, len(pool)))` selects the
candidates.  The Mersenne-Twister RNG is an external collaborator; it is
modelled by a deterministic selection-without-replacement driven by a
64-bit LCG seeded with the timestamp.  The model is faithful in the
properties the spec states about it: the selection is a pure function of
the seed, and it returns exactly `min(max_results, len(pool))` distinct
pool elements in some order.
-/

structure Candidate where
  url : String
  title : String
  description : String
  source : String
deriving DecidableEq, Repr

/-- The fixed 15-URL fallback pool, parameterized by the epoch timestamp. -/
def fallback_sources (ts : Nat) : List String :=
  ["https://docs.anthropic.com/claude/docs/claude-code-sdk?v=" ++ toString ts,
   "https://github.com/anthropics/claude-code/discussions?v=" ++ toString ts,
   "https://www.anthropic.com/product/claude-code?ref=sdk&v=" ++ toString ts,
   "https://community.anthropic.com/c/claude-code/" ++ toString (ts % 100),
   "https://news.ycombinator.com/item?id=" ++ toString (30000000 + ts % 10000),
   "https://reddit.com/r/ClaudeAI/comments/claude_code_" ++ toString (ts % 1000),
   "https://dev.to/t/claude/latest?v=" ++ toString ts,
   "https://medium.com/tag/claude-ai/latest?v=" ++ toString ts,
   "https://stackoverflow.com/questions/tagged/claude-code?page=" ++ toString (ts % 10 + 1),
   "https://twitter.com/search?q=claude%20code%20sdk&src=typed_query&f=live&t=" ++ toString ts,
   "https://www.producthunt.com/search?q=claude%20code&v=" ++ toString ts,
   "https://lobste.rs/search?q=claude&what=stories&order=newest&v=" ++ toString ts,
   "https://hackernews.algolia.com/?q=claude%20code&t=" ++ toString ts,
   "https://duckduckgo.com/?q=claude+code+sdk+tutorial+" ++ toString (ts % 100),
   "https://www.youtube.com/results?search_query=claude+code+sdk&sp=CAI%253D&v=" ++ toString ts]

/-- One step of the 64-bit LCG standing in for the Mersenne Twister. -/
def lcgNext (s : Nat) : Nat :=
  (s * 6364136223846793005 + 1442695040888963407) % 18446744073709551616

/-- Selection without replacement: `k` picks from the remaining pool. -/
def sampleGo : Nat → Nat → List String → List String
  | 0, _, _ => []
  | _ + 1, _, [] => []
  | k + 1, s, p :: ps =>
    let pool := p :: ps
    let i := s % pool.length
    pool.getD i "" ::
      sampleGo k (lcgNext s) (pool.take i ++ pool.drop (i + 1))

/-- Model of `random.seed(ts); random.sample(pool, k)`. -/
def sampleModel (seed : Nat) (pool : List String) (k : Nat) : List String :=
  sampleGo k (lcgNext seed) pool

/-- The fallback branch of `search_web`: sample
`min(max_results, len(fallback_sources))` URLs and attach the curated
metadata (`idx` is Python's `enumerate` index). -/
def fallbackResults (ts maxResults : Nat) : List Candidate :=
  let srcs := fallback_sources ts
  let selected := sampleModel ts srcs (min maxResults srcs.length)
  selected.enum.map (fun iu =>
    ⟨iu.2, "Claude Code SDK Resource #" ++ toString (iu.1 + 1),
     "Curated source for Claude Code SDK content", "Curated Sources"⟩)

/-- `search_web` with the primary path abstracted: the candidates the
DuckDuckGo scrape produced (possibly none, also when the request failed)
are a parameter; the fallback fires exactly when that list is empty. -/
def search_web (primary : List Candidate) (ts maxResults : Nat) : List Candidate :=
  if primary.length = 0 then fallbackResults ts maxResults else primary

/-!
Collection Driver: `collect_from_sources` (main.py lines 293-377).  The
collector methods invoked per candidate are abstracted as an operations
record over a store state `σ`: this matches the call structure of the
loop, where `is_duplicate`, `validate_url`, `store_url` act on shared
state and return a result plus appended errors.  `search` is indexed by
the (1-based) attempt number and the query; a `.error` models the
exception branch of the loop body.  The loop is bounded by
`max_attempts`; it is modelled by structural recursion on the remaining
fuel `max_attempts - attempt`.
-/

/-- The fixed query list `self.search_queries`. -/
def searchQueries : List String :=
  ["Claude Code SDK documentation",
   "Claude Code SDK tutorial",
   "Claude Code SDK guide",
   "Claude Code SDK API",
   "Claude Code SDK examples",
   "Anthropic Claude Code SDK",
   "Claude Code SDK newsletter",
   "Claude Code SDK articles"]

def target_urls : Nat := 5

/-- `max_attempts = len(self.search_queries) * 2`. -/
def max_attempts : Nat := searchQueries.length * 2

structure DriverOps (σ : Type) where
  isDup : σ → String → Bool × List String
  validate : σ → String → Bool
  store : σ → String → Candidate → String → Bool × σ × List String
  search : Nat → String → Except String (List Candidate)

structure DriverState (σ : Type) where
  redis : σ
  new_urls_added : Nat
  duplicates_filtered : Nat
  collected_urls : List String
  errors : List String
  attempt : Nat
  query_index : Nat
  sources_queried : Nat
  urls_discovered : Nat

/-- The inner `for result in results` loop: per candidate, skip a falsy
URL, count it as discovered, skip duplicates (counting them), validate,
store, and break out as soon as the target is reached. -/
def processBatch {σ : Type} (ops : DriverOps σ) (query : String) :
    List Candidate → DriverState σ → DriverState σ
  | [], st => st
  | c :: cs, st =>
    if c.url = "" then processBatch ops query cs st
    else
      let st1 := { st with urls_discovered := st.urls_discovered + 1 }
      let dup := ops.isDup st1.redis c.url
      let st2 := { st1 with errors := st1.errors ++ dup.2 }
      if dup.1 then
        processBatch ops query cs
          { st2 with duplicates_filtered := st2.duplicates_filtered + 1 }
      else if ops.validate st2.redis c.url then
        let s := ops.store st2.redis c.url c query
        let st3 := { st2 with redis := s.2.1, errors := st2.errors ++ s.2.2 }
        if s.1 then
          let st4 := { st3 with new_urls_added := st3.new_urls_added + 1,
                                collected_urls := st3.collected_urls ++ [c.url] }
          if target_urls ≤ st4.new_urls_added then st4
          else processBatch ops query cs st4
        else processBatch ops query cs st3
      else processBatch ops query cs st2

/-- The `while self.new_urls_added < target_urls and attempt < max_attempts`
loop, by recursion on the remaining attempts. -/
def collectLoop {σ : Type} (ops : DriverOps σ) : Nat → DriverState σ → DriverState σ
  | 0, st => st
  | fuel + 1, st =>
    if st.new_urls_added < target_urls then
      let query := searchQueries.getD (st.query_index % searchQueries.length) ""
      let st1 := { st with sources_queried := st.sources_queried + 1,
                           attempt := st.attempt + 1 }
      match ops.search st1.attempt query with
      | .ok results =>
        let st2 := processBatch ops query results st1
        if target_urls ≤ st2.new_urls_added then st2
        else collectLoop ops fuel { st2 with query_index := st2.query_index + 1 }
      | .error e =>
        collectLoop ops fuel
          { st1 with errors := st1.errors ++ ["Search error for " ++ query ++ ": " ++ e],
                     query_index := st1.query_index + 1 }
    else st

/-- The run counters at the start of `collect_from_sources` (a fresh
collector has empty counters and error list). -/
def initState {σ : Type} (σ0 : σ) : DriverState σ := ⟨σ0, 0, 0, [], [], 0, 0, 0, 0⟩

/-- `ClaudeCodeSDKCollector.collect_from_sources`. -/
def collect_from_sources {σ : Type} (ops : DriverOps σ) (σ0 : σ) : DriverState σ :=
  collectLoop ops max_attempts (initState σ0)

/-!
Auxiliary definitions used only in claim statements.
-/

/-- A lowercase hexadecimal character (the alphabet of `hexdigest()`). -/
def isHexCh (c : Char) : Bool := c.isDigit || ('a' ≤ c && c ≤ 'f')

/-- Removal of exactly one trailing slash, the path rule as the claim about
`normalize_url` words it ("exactly one trailing / stripped"). -/
def dropOneSlash (l : Chars) : Chars :=
  if l.getLast? = some '/' then l.dropLast else l

/-- The normalization the claim describes, differing from the code only in
stripping exactly one trailing slash instead of all of them. -/
def normalize_url_claimed (url : String) : String × List String :=
  match urlparseM url.data with
  | .error e => (url, ["URL normalization error: " ++ e])
  | .ok p =>
    (String.mk (urlunparseM
      ⟨HTTPS, stripWww (lowerL p.netloc), dropOneSlash p.path, p.params, p.query, []⟩), [])

/-- Stability of a (normalized) URL string under one more round of
splitting: its host is already lower-case and keeps no further leading
`www.`, the params split of its path portion re-joins to itself and
leaves no trailing slash on the path part, and it is not an empty host
followed by a path beginning with `//`.  `normalize_url` is idempotent
exactly on inputs whose normal form satisfies this. -/
def reSplitStable (s : String) : Bool :=
  match urlsplitM s.data with
  | .error _ => true
  | .ok (_, netloc, pathq, _, _) =>
    lowerL netloc == netloc && stripWww netloc == netloc &&
    rstripSlash (splitParams pathq).1 == (splitParams pathq).1 &&
    joinParams (splitParams pathq).1 (splitParams pathq).2 == pathq &&
    !(netloc == ([] : Chars) && pathq.take 2 == ['/', '/'])

/-!
Theorems.  General helper lemmas first, then one theorem per claim
(with its witness or counterexample).
-/

theorem length_flatMap_hexPair (l : List Nat) :
    (l.flatMap hexPair).length = 2 * l.length := by
  induction l with
  | nil => rfl
  | cons a t ih =>
    simp only [List.flatMap_cons, List.length_append, ih, List.length_cons]
    simp [hexPair]
    omega

theorem isHexCh_hexDigit (n : Nat) : isHexCh (hexDigit n) = true := by
  rcases Nat.lt_or_ge n 16 with h | h
  · unfold hexDigit
    interval_cases n <;> decide
  · have hd : hexDigit n = '0' := by
      unfold hexDigit
      rw [if_neg (by omega), if_neg (by omega)]
    rw [hd]
    decide

theorem sha256hexChars_length (m : List Nat) : (sha256hexChars m).length = 64 := by
  unfold sha256hexChars
  rw [length_flatMap_hexPair]
  simp [be4]

theorem mem_sha256hexChars_hex (m : List Nat) (c : Char)
    (hc : c ∈ sha256hexChars m) : isHexCh c = true := by
  unfold sha256hexChars at hc
  rcases List.mem_flatMap.mp hc with ⟨b, _, hb⟩
  simp only [hexPair, List.mem_cons, List.not_mem_nil, or_false] at hb
  rcases hb with h | h <;> rw [h] <;> exact isHexCh_hexDigit _

/-- C2: `get_url_hash u` is exactly the first 16 hex characters of the
SHA-256 of the UTF-8 encoding of `normalize_url(u)`; it always has length
16, consists of hexadecimal characters only, and two URLs with equal
normalizations have equal fingerprints. -/
theorem get_url_hash_spec (u : String) :
    get_url_hash u = String.mk ((sha256hexChars (strBytes (normalizeStr u))).take 16) ∧
    (get_url_hash u).length = 16 ∧
    (∀ c ∈ (get_url_hash u).data, isHexCh c = true) ∧
    ∀ u1 u2 : String, normalizeStr u1 = normalizeStr u2 →
      get_url_hash u1 = get_url_hash u2 := by
  refine ⟨rfl, ?_, ?_, ?_⟩
  · show (String.mk _).length = 16
    simp only [String.length]
    rw [List.length_take, sha256hexChars_length]
    decide
  · intro c hc
    have hc' : c ∈ (sha256hexChars (strBytes (normalizeStr u))).take 16 := hc
    exact mem_sha256hexChars_hex _ _ (List.mem_of_mem_take hc')
  · intro u1 u2 h
    unfold get_url_hash
    rw [h]

/-- Witness for the fingerprint-determinism hypothesis of
`get_url_hash_spec`, at two textual variants of one resource. -/
theorem get_url_hash_spec_witness :
    normalizeStr "http://WWW.Example.com/a/" = normalizeStr "https://example.com/a" ∧
    get_url_hash "http://WWW.Example.com/a/" = get_url_hash "https://example.com/a" :=
  ⟨by decide,
   (get_url_hash_spec "https://example.com/a").2.2.2 _ _ (by decide)⟩

theorem sampleGo_length (k : Nat) :
    ∀ (s : Nat) (pool : List String), k ≤ pool.length →
      (sampleGo k s pool).length = k := by
  induction k with
  | zero => intro s pool _; rfl
  | succ k ih =>
    intro s pool h
    match pool with
    | [] => simp at h
    | p :: ps =>
      have hi : s % (p :: ps).length < (p :: ps).length :=
        Nat.mod_lt _ (by simp)
      simp only [sampleGo, List.length_cons]
      rw [ih]
      · have := List.length_take (s % (p :: ps).length) (p :: ps)
        have := List.length_drop (s % (p :: ps).length + 1) (p :: ps)
        rw [List.length_append, List.length_take, List.length_drop]
        simp only [List.length_cons] at hi ⊢
        simp only [List.length_cons] at h
        omega

/-- C9: the fallback generator is deterministic in its timestamp seed —
equal seeds give the identical ordered candidate list — and the list has
length `min max_results 15` (15 being the size of the fixed pool). -/
theorem fallback_deterministic (t1 t2 maxResults : Nat) (h : t1 = t2) :
    fallbackResults t1 maxResults = fallbackResults t2 maxResults ∧
    (fallbackResults t1 maxResults).length = min maxResults 15 := by
  subst h
  refine ⟨rfl, ?_⟩
  have hlen : (fallback_sources t1).length = 15 := by simp [fallback_sources]
  unfold fallbackResults sampleModel
  rw [List.length_map, List.enum_length, sampleGo_length]
  · rw [hlen]
  · rw [hlen]
    exact Nat.min_le_right _ _

/-- Witness for `fallback_deterministic` at a concrete seed. -/
theorem fallback_deterministic_witness :
    fallbackResults 1000 10 = fallbackResults 1000 10 ∧
    (fallbackResults 1000 10).length = min 10 15 :=
  fallback_deterministic 1000 1000 10 rfl

/-- C1: `is_duplicate` answers true exactly when the per-fingerprint key
exists (a nonzero `exists` count) or the normalized URL is a member of the
`claude-sdk:urls` set; when either storage query raises, the answer is
false and the error is appended to the run's error list (after the
diagnostics of the internal `normalize_url` calls). -/
theorem is_duplicate_spec (cl : DupClient) (url : String) (errors : List String) :
    (∀ n b, cl.existsKey ("claude-sdk:url:" ++ get_url_hash url) = .ok n →
        cl.sismember "claude-sdk:urls" (normalizeStr url) = .ok b →
        is_duplicate cl url errors =
          ((decide (n ≠ 0) || b),
           errors ++ (normalize_url url).2 ++ (normalize_url url).2)) ∧
    (∀ e, cl.existsKey ("claude-sdk:url:" ++ get_url_hash url) = .error e →
        is_duplicate cl url errors =
          (false, errors ++ (normalize_url url).2 ++ ["Duplicate check error: " ++ e])) ∧
    (∀ n e, cl.existsKey ("claude-sdk:url:" ++ get_url_hash url) = .ok n →
        cl.sismember "claude-sdk:urls" (normalizeStr url) = .error e →
        is_duplicate cl url errors =
          (false, errors ++ (normalize_url url).2 ++ (normalize_url url).2 ++
            ["Duplicate check error: " ++ e])) := by
  refine ⟨?_, ?_, ?_⟩
  · intro n b h1 h2
    unfold is_duplicate
    rw [h1, h2]
  · intro e h1
    unfold is_duplicate
    rw [h1]
  · intro n e h1 h2
    unfold is_duplicate
    rw [h1, h2]

/-- Witness for `is_duplicate_spec`: with the fingerprint key present and
the set membership failing, the oracle still fails open. -/
theorem is_duplicate_spec_witness :
    is_duplicate ⟨fun _ => .ok 1, fun _ _ => .error "connection reset"⟩
      "https://example.com/a" [] =
      (false, ["Duplicate check error: connection reset"]) := by
  have h := (is_duplicate_spec ⟨fun _ => .ok 1, fun _ _ => .error "connection reset"⟩
    "https://example.com/a" []).2.2 1 "connection reset" rfl rfl
  rw [h]
  decide

/-- C6: `store_url` attempts its four writes in source order (CollectionSet
`sadd`, metadata `hset`, Timeline `zadd`, fingerprint lookup `set`); a
failure at any step stops there, appends the storage error, reports
failure and leaves the counter unchanged; the counter grows by exactly 1
only when all four writes succeed. -/
theorem store_url_spec (exec : RedisOp → Except String Unit) (url : String)
    (metadata : List (String × String)) (nowIso : String) (nowTs : Nat)
    (errors : List String) (cnt : Nat) :
    (∀ e, exec (storeOp1 url) = .error e →
        store_url exec url metadata nowIso nowTs errors cnt =
          (false, errors ++ (normalize_url url).2 ++ (normalize_url url).2 ++
            ["Storage error: " ++ e], cnt, (storeOps url metadata nowIso nowTs).take 1)) ∧
    (∀ e, exec (storeOp1 url) = .ok () →
        exec (storeOp2 url metadata nowIso) = .error e →
        store_url exec url metadata nowIso nowTs errors cnt =
          (false, errors ++ (normalize_url url).2 ++ (normalize_url url).2 ++
            ["Storage error: " ++ e], cnt, (storeOps url metadata nowIso nowTs).take 2)) ∧
    (∀ e, exec (storeOp1 url) = .ok () →
        exec (storeOp2 url metadata nowIso) = .ok () →
        exec (storeOp3 url nowTs) = .error e →
        store_url exec url metadata nowIso nowTs errors cnt =
          (false, errors ++ (normalize_url url).2 ++ (normalize_url url).2 ++
            ["Storage error: " ++ e], cnt, (storeOps url metadata nowIso nowTs).take 3)) ∧
    (∀ e, exec (storeOp1 url) = .ok () →
        exec (storeOp2 url metadata nowIso) = .ok () →
        exec (storeOp3 url nowTs) = .ok () →
        exec (storeOp4 url) = .error e →
        store_url exec url metadata nowIso nowTs errors cnt =
          (false, errors ++ (normalize_url url).2 ++ (normalize_url url).2 ++
            ["Storage error: " ++ e], cnt, storeOps url metadata nowIso nowTs)) ∧
    (exec (storeOp1 url) = .ok () →
        exec (storeOp2 url metadata nowIso) = .ok () →
        exec (storeOp3 url nowTs) = .ok () →
        exec (storeOp4 url) = .ok () →
        store_url exec url metadata nowIso nowTs errors cnt =
          (true, errors ++ (normalize_url url).2 ++ (normalize_url url).2,
           cnt + 1, storeOps url metadata nowIso nowTs)) := by
  refine ⟨?_, ?_, ?_, ?_, ?_⟩
  · intro e h1
    unfold store_url
    rw [h1]
    rfl
  · intro e h1 h2
    unfold store_url
    rw [h1, h2]
    rfl
  · intro e h1 h2 h3
    unfold store_url
    rw [h1, h2, h3]
    rfl
  · intro e h1 h2 h3 h4
    unfold store_url
    rw [h1, h2, h3, h4]
  · intro h1 h2 h3 h4
    unfold store_url
    rw [h1, h2, h3, h4]

/-- Witness for `store_url_spec`: all four writes succeed and the counter
advances by exactly one. -/
theorem store_url_spec_witness :
    store_url (fun _ => .ok ()) "https://example.com/a"
      [("title", "t")] "2026-10-12T00:00:00" 1760227200 [] 0 =
      (true, [] ++ (normalize_url "https://example.com/a").2 ++
        (normalize_url "https://example.com/a").2, 0 + 1,
       storeOps "https://example.com/a" [("title", "t")] "2026-10-12T00:00:00" 1760227200) :=
  (store_url_spec (fun _ => .ok ()) "https://example.com/a" [("title", "t")]
    "2026-10-12T00:00:00" 1760227200 [] 0).2.2.2.2 rfl rfl rfl rfl

/-- C7: `validate_url` rejects a parsed URL lacking scheme or netloc
without any probe; accepts a URL whose netloc matches the trusted-domain
allowlist without any probe; otherwise issues a HEAD probe (and a GET
probe after a 405) and accepts on status below 400, on timeout and on any
other transport error, so a reject of a well-formed URL can only come
from a completed probe with status at least 400. -/
theorem validate_url_spec (net : Net) (url : String) (p : UrlParts)
    (hp : urlparseM url.data = .ok p) :
    ((p.scheme = [] ∨ p.netloc = []) → validate_url net url = (false, [])) ∧
    (p.scheme ≠ [] → p.netloc ≠ [] → trustedHit p.netloc = true →
        validate_url net url = (true, [])) ∧
    (p.scheme ≠ [] → p.netloc ≠ [] → trustedHit p.netloc = false →
      (∀ er, net.headReq url = .error er →
          validate_url net url = (true, [NetCall.headCall url])) ∧
      (∀ s, net.headReq url = .ok s → s ≠ 405 →
          validate_url net url = (decide (s < 400), [NetCall.headCall url])) ∧
      (∀ er, net.headReq url = .ok 405 → net.getReq url = .error er →
          validate_url net url = (true, [NetCall.headCall url, NetCall.getCall url])) ∧
      (∀ s2, net.headReq url = .ok 405 → net.getReq url = .ok s2 →
          validate_url net url =
            (decide (s2 < 400), [NetCall.headCall url, NetCall.getCall url]))) ∧
    ((validate_url net url).1 = false →
      (p.scheme = [] ∨ p.netloc = []) ∨
      ∃ s, 400 ≤ s ∧
        ((net.headReq url = .ok s ∧ s ≠ 405) ∨
         (net.headReq url = .ok 405 ∧ net.getReq url = .ok s))) := by
  have hv : validate_url net url =
      (if p.scheme = [] ∨ p.netloc = [] then (false, [])
       else if trustedHit p.netloc then (true, [])
       else
        match net.headReq url with
        | .error _ => (true, [NetCall.headCall url])
        | .ok s =>
          if s = 405 then
            match net.getReq url with
            | .error _ => (true, [NetCall.headCall url, NetCall.getCall url])
            | .ok s2 => (decide (s2 < 400), [NetCall.headCall url, NetCall.getCall url])
          else (decide (s < 400), [NetCall.headCall url])) := by
    unfold validate_url
    rw [hp]
  refine ⟨?_, ?_, ?_, ?_⟩
  · intro h
    rw [hv, if_pos h]
  · intro h1 h2 h3
    rw [hv, if_neg (by tauto), if_pos h3]
  · intro h1 h2 h3
    refine ⟨?_, ?_, ?_, ?_⟩
    · intro er her
      rw [hv, if_neg (by tauto), if_neg (by simp [h3]), her]
    · intro s hs hne
      rw [hv, if_neg (by tauto), if_neg (by simp [h3]), hs]
      simp [hne]
    · intro er hs hg
      rw [hv, if_neg (by tauto), if_neg (by simp [h3]), hs]
      simp [hg]
    · intro s2 hs hg
      rw [hv, if_neg (by tauto), if_neg (by simp [h3]), hs]
      simp [hg]
  · intro hfalse
    rw [hv] at hfalse
    by_cases hmal : p.scheme = [] ∨ p.netloc = []
    · exact Or.inl hmal
    · right
      rw [if_neg hmal] at hfalse
      by_cases htr : trustedHit p.netloc
      · rw [if_pos htr] at hfalse
        simp at hfalse
      · rw [if_neg htr] at hfalse
        cases hh : net.headReq url with
        | error er => rw [hh] at hfalse; simp at hfalse
        | ok s =>
          rw [hh] at hfalse
          by_cases h405 : s = 405
          · subst h405
            cases hg : net.getReq url with
            | error er =>
              rw [hg] at hfalse
              simp at hfalse
            | ok s2 =>
              rw [hg] at hfalse
              simp at hfalse
              exact ⟨s2, by omega, Or.inr ⟨rfl, rfl⟩⟩
          · simp [h405] at hfalse
            exact ⟨s, by omega, Or.inl ⟨rfl, h405⟩⟩

/-- Witness for `validate_url_spec`: a well-formed URL outside the
allowlist whose HEAD probe times out is accepted after exactly one
network call. -/
theorem validate_url_spec_witness :
    validate_url ⟨fun _ => .error NetErr.timeout, fun _ => .ok 200⟩
      "https://example.org/x" =
      (true, [NetCall.headCall "https://example.org/x"]) :=
  ((validate_url_spec ⟨fun _ => .error NetErr.timeout, fun _ => .ok 200⟩
      "https://example.org/x"
      ⟨"https".data, "example.org".data, "/x".data, [], [], []⟩
      (by rfl)).2.2.1
    (by decide) (by decide) (by decide)).1 NetErr.timeout rfl

/-- C10: the trusted-domain test of `validate_url` is a substring match on
the lower-cased netloc, so any URL with scheme and netloc whose netloc
merely contains an allowlisted domain is accepted with no network call. -/
theorem validate_url_substring_allowlist (net : Net) (url : String) (p : UrlParts)
    (hp : urlparseM url.data = .ok p) (hs : p.scheme ≠ []) (hn : p.netloc ≠ [])
    (hsub : ∃ d ∈ trusted_domains, containsSub d.data (lowerL p.netloc) = true) :
    validate_url net url = (true, []) := by
  have htr : trustedHit p.netloc = true := by
    rcases hsub with ⟨d, hd, hc⟩
    unfold trustedHit
    exact List.any_eq_true.mpr ⟨d, hd, hc⟩
  unfold validate_url
  rw [hp]
  simp only [if_neg (by tauto : ¬(p.scheme = [] ∨ p.netloc = [])), htr, if_pos]

/-- Witness for `validate_url_substring_allowlist`: the malicious host
`github.com.evil.example` is accepted with no probe, even against a
network that would reject it. -/
theorem validate_url_substring_allowlist_witness :
    validate_url ⟨fun _ => .ok 500, fun _ => .ok 500⟩
      "https://github.com.evil.example/x" = (true, []) :=
  validate_url_substring_allowlist ⟨fun _ => .ok 500, fun _ => .ok 500⟩
    "https://github.com.evil.example/x"
    ⟨"https".data, "github.com.evil.example".data, "/x".data, [], [], []⟩
    (by rfl) (by decide) (by decide)
    ⟨"github.com", by decide, by decide⟩

/-- C3 counterexample: on a path with two trailing slashes the code strips
both, while the claim's "exactly one trailing slash" rule would leave one. -/
theorem normalize_url_one_slash_counterexample :
    normalize_url "https://example.com/a//" ≠
      normalize_url_claimed "https://example.com/a//" ∧
    normalize_url "https://example.com/a//" = ("https://example.com/a", []) ∧
    normalize_url_claimed "https://example.com/a//" = ("https://example.com/a/", []) := by
  refine ⟨?_, ?_, ?_⟩ <;> decide

/-- C3 (amended): for a parseable URL, `normalize_url` rebuilds it with the
scheme forced to https, the host lower-cased and one leading `www.`
stripped, ALL trailing slashes removed from the path (so the root path
becomes empty), params and query preserved verbatim and the fragment
dropped, recording no error; on a parse failure it returns the input
unchanged and appends one diagnostic instead of raising. -/
theorem normalize_url_amended_spec (u : String) :
    (∀ e, urlparseM u.data = .error e →
        normalize_url u = (u, ["URL normalization error: " ++ e])) ∧
    (∀ p, urlparseM u.data = .ok p →
        normalize_url u =
          (String.mk (urlunparseM
            ⟨HTTPS, stripWww (lowerL p.netloc), rstripSlash p.path,
             p.params, p.query, []⟩), [])) := by
  constructor
  · intro e h
    unfold normalize_url
    rw [h]
  · intro p h
    unfold normalize_url
    rw [h]
    rfl

/-- Witness for `normalize_url_amended_spec` at a URL exercising scheme
forcing, host lower-casing, www-stripping and slash-stripping. -/
theorem normalize_url_amended_spec_witness :
    normalize_url "http://WWW.Example.com/a//" = ("https://example.com/a", []) := by
  have h := (normalize_url_amended_spec "http://WWW.Example.com/a//").2
    ⟨"http".data, "WWW.Example.com".data, "/a//".data, [], [], []⟩ (by rfl)
  rw [h]
  decide

theorem processBatch_counters {σ : Type} (ops : DriverOps σ) (q : String)
    (cs : List Candidate) : ∀ st : DriverState σ,
    (processBatch ops q cs st).attempt = st.attempt ∧
    (processBatch ops q cs st).query_index = st.query_index ∧
    (processBatch ops q cs st).sources_queried = st.sources_queried := by
  induction cs with
  | nil => intro st; exact ⟨rfl, rfl, rfl⟩
  | cons c cs ih =>
    intro st
    simp only [processBatch]
    split
    · exact ih st
    · split
      · exact ih _
      · split
        · split
          · split
            · exact ⟨rfl, rfl, rfl⟩
            · exact ih _
          · exact ih _
        · exact ih _

theorem processBatch_all_dup {σ : Type} (ops : DriverOps σ) (q : String)
    (cs : List Candidate) : ∀ st : DriverState σ,
    (∀ (s : σ) c, c ∈ cs → (ops.isDup s c.url).1 = true) →
    (processBatch ops q cs st).new_urls_added = st.new_urls_added ∧
    (processBatch ops q cs st).redis = st.redis := by
  induction cs with
  | nil => intro st _; exact ⟨rfl, rfl⟩
  | cons c cs ih =>
    intro st h
    have htail : ∀ (s : σ) c, c ∈ cs → (ops.isDup s c.url).1 = true :=
      fun s c hc => h s c (List.mem_cons_of_mem _ hc)
    simp only [processBatch]
    split
    · exact ih st htail
    · split
      · exact ih _ htail
      · rename_i hnd
        exact absurd (h _ c (by simp)) hnd

theorem processBatch_attempt {σ : Type} (ops : DriverOps σ) (q : String)
    (cs : List Candidate) (st : DriverState σ) :
    (processBatch ops q cs st).attempt = st.attempt :=
  (processBatch_counters ops q cs st).1

theorem collectLoop_post {σ : Type} (ops : DriverOps σ) (fuel : Nat) :
    ∀ st : DriverState σ,
      target_urls ≤ (collectLoop ops fuel st).new_urls_added ∨
      (collectLoop ops fuel st).attempt = st.attempt + fuel := by
  induction fuel with
  | zero => intro st; right; rfl
  | succ fuel ih =>
    intro st
    simp only [collectLoop]
    split
    · split
      · split
        · rename_i hge
          left
          exact hge
        · rcases ih _ with h | h
          · left; exact h
          · right
            refine Eq.trans h ?_
            simp only [processBatch_attempt]
            omega
      · rcases ih _ with h | h
        · left; exact h
        · right
          refine Eq.trans h ?_
          simp only []
          omega
    · rename_i hlt
      left
      omega

theorem collectLoop_all_dup {σ : Type} (ops : DriverOps σ)
    (hdup : ∀ (s : σ) (n : Nat) (q : String) (cs : List Candidate),
      ops.search n q = .ok cs → ∀ c ∈ cs, (ops.isDup s c.url).1 = true)
    (fuel : Nat) :
    ∀ st : DriverState σ, st.new_urls_added = 0 →
      (collectLoop ops fuel st).new_urls_added = 0 ∧
      (collectLoop ops fuel st).attempt = st.attempt + fuel := by
  induction fuel with
  | zero => intro st h0; exact ⟨h0, rfl⟩
  | succ fuel ih =>
    intro st h0
    simp only [collectLoop]
    split
    · split
      · rename_i results hres
        set Q := searchQueries.getD (st.query_index % searchQueries.length) "" with hQ
        set ST1 : DriverState σ :=
          { st with sources_queried := st.sources_queried + 1,
                    attempt := st.attempt + 1 } with hST1
        set ST2 := processBatch ops Q results ST1 with hST2
        have hbatch := processBatch_all_dup ops Q results ST1
          (fun s c hc => hdup s _ _ results hres c hc)
        have hb0 : ST2.new_urls_added = 0 := by
          rw [hST2, hbatch.1, hST1]
          exact h0
        split
        · rename_i hge
          exfalso
          rw [hb0] at hge
          exact absurd hge (by decide)
        · have hrec := ih { ST2 with query_index := ST2.query_index + 1 }
            (show ({ ST2 with query_index := ST2.query_index + 1 } :
              DriverState σ).new_urls_added = 0 from hb0)
          refine ⟨hrec.1, hrec.2.trans ?_⟩
          show ST2.attempt + fuel = st.attempt + (fuel + 1)
          rw [hST2, processBatch_attempt]
          show st.attempt + 1 + fuel = st.attempt + (fuel + 1)
          omega
      · rename_i e heq
        have hrec := ih
          { st with
            errors := st.errors ++
              ["Search error for " ++
                searchQueries.getD (st.query_index % searchQueries.length) "" ++ ": " ++ e],
            attempt := st.attempt + 1, query_index := st.query_index + 1,
            sources_queried := st.sources_queried + 1 } h0
        refine ⟨hrec.1, hrec.2.trans ?_⟩
        show st.attempt + 1 + fuel = st.attempt + (fuel + 1)
        omega
    · rename_i hlt
      exfalso
      exact hlt (by rw [h0]; decide)

/-- C4: the driver loop always terminates in the Done state — the final
state has either reached the target of 5 newly stored URLs or an attempt
count of `max_attempts = 2 * len(search_queries) = 16`; and against a
source whose every returned candidate the Duplicate Oracle reports as
duplicate, the run performs exactly 16 iterations and ends with a
new-URL count of 0. -/
theorem collect_from_sources_terminates {σ : Type} (ops : DriverOps σ) (σ0 : σ) :
    max_attempts = 16 ∧
    (target_urls ≤ (collect_from_sources ops σ0).new_urls_added ∨
      (collect_from_sources ops σ0).attempt = 16) ∧
    ((∀ (s : σ) (n : Nat) (q : String) (cs : List Candidate),
        ops.search n q = .ok cs → ∀ c ∈ cs, (ops.isDup s c.url).1 = true) →
      (collect_from_sources ops σ0).attempt = 16 ∧
      (collect_from_sources ops σ0).new_urls_added = 0) := by
  refine ⟨by decide, ?_, ?_⟩
  · have h := collectLoop_post ops max_attempts (initState σ0)
    unfold collect_from_sources
    rcases h with h | h
    · left; exact h
    · right; rw [h]; rfl
  · intro hdup
    have h := collectLoop_all_dup ops hdup max_attempts (initState σ0) rfl
    constructor
    · show (collectLoop ops max_attempts (initState σ0)).attempt = 16
      rw [h.2]
      rfl
    · exact h.1

/-- Witness for `collect_from_sources_terminates`: a source always
returning one candidate that the oracle always calls duplicate exhausts
all 16 attempts with nothing stored. -/
theorem collect_from_sources_terminates_witness :
    (collect_from_sources
      (⟨fun _ _ => (true, []), fun _ _ => true, fun s _ _ _ => (true, s, []),
        fun _ _ => .ok [⟨"https://example.com/a", "t", "d", "s"⟩]⟩ : DriverOps Unit)
      ()).attempt = 16 ∧
    (collect_from_sources
      (⟨fun _ _ => (true, []), fun _ _ => true, fun s _ _ _ => (true, s, []),
        fun _ _ => .ok [⟨"https://example.com/a", "t", "d", "s"⟩]⟩ : DriverOps Unit)
      ()).new_urls_added = 0 :=
  (collect_from_sources_terminates _ ()).2.2 (fun _ _ _ _ _ _ _ => rfl)

theorem processBatch_all_new {σ : Type} (ops : DriverOps σ) (q : String) :
    ∀ (cs : List Candidate) (st : DriverState σ),
      (∀ c ∈ cs, c.url ≠ "") →
      (∀ (s : σ) c, c ∈ cs → (ops.isDup s c.url).1 = false) →
      (∀ (s : σ) c, c ∈ cs → ops.validate s c.url = true) →
      (∀ (s : σ) c, c ∈ cs → (ops.store s c.url c q).1 = true) →
      st.new_urls_added < target_urls →
      target_urls ≤ st.new_urls_added + cs.length →
      (processBatch ops q cs st).new_urls_added = target_urls ∧
      (processBatch ops q cs st).urls_discovered =
        st.urls_discovered + (target_urls - st.new_urls_added) ∧
      (processBatch ops q cs st).collected_urls =
        st.collected_urls ++
          (cs.take (target_urls - st.new_urls_added)).map (fun c => c.url) := by
  intro cs
  induction cs with
  | nil =>
    intro st _ _ _ _ hlt hge
    exfalso
    simp at hge
    omega
  | cons c cs ihc =>
    intro st hurl hdup hval hsto hlt hge
    have hu : c.url ≠ "" := hurl c (by simp)
    have hd : ∀ s : σ, (ops.isDup s c.url).1 = false := fun s => hdup s c (by simp)
    have hv : ∀ s : σ, ops.validate s c.url = true := fun s => hval s c (by simp)
    have hs : ∀ s : σ, (ops.store s c.url c q).1 = true := fun s => hsto s c (by simp)
    simp only [processBatch, if_neg hu, hd, hv, hs, Bool.false_eq_true, if_false, if_true]
    by_cases hfin : target_urls ≤ st.new_urls_added + 1
    · rw [if_pos hfin]
      have h1 : target_urls - st.new_urls_added = 1 := by omega
      refine ⟨?_, ?_, ?_⟩
      · show st.new_urls_added + 1 = target_urls
        omega
      · show st.urls_discovered + 1 =
          st.urls_discovered + (target_urls - st.new_urls_added)
        omega
      · show st.collected_urls ++ [c.url] =
          st.collected_urls ++
            ((c :: cs).take (target_urls - st.new_urls_added)).map (fun c => c.url)
        rw [h1]
        rfl
    · rw [if_neg hfin]
      have hrec := ihc
        { st with
          redis := (ops.store st.redis c.url c q).2.1,
          errors := (st.errors ++ (ops.isDup st.redis c.url).2) ++
            (ops.store st.redis c.url c q).2.2,
          new_urls_added := st.new_urls_added + 1,
          collected_urls := st.collected_urls ++ [c.url],
          urls_discovered := st.urls_discovered + 1 }
        (fun c hc => hurl c (List.mem_cons_of_mem _ hc))
        (fun s c hc => hdup s c (List.mem_cons_of_mem _ hc))
        (fun s c hc => hval s c (List.mem_cons_of_mem _ hc))
        (fun s c hc => hsto s c (List.mem_cons_of_mem _ hc))
        (by simp only []; omega)
        (by simp only [List.length_cons] at hge; simp only []; omega)
      refine ⟨hrec.1, hrec.2.1.trans ?_, hrec.2.2.trans ?_⟩
      · show st.urls_discovered + 1 + (target_urls - (st.new_urls_added + 1)) =
          st.urls_discovered + (target_urls - st.new_urls_added)
        omega
      · show (st.collected_urls ++ [c.url]) ++
            (cs.take (target_urls - (st.new_urls_added + 1))).map (fun c => c.url) =
          st.collected_urls ++
            ((c :: cs).take (target_urls - st.new_urls_added)).map (fun c => c.url)
        have h1 : target_urls - st.new_urls_added =
            (target_urls - (st.new_urls_added + 1)) + 1 := by omega
        rw [h1, List.take_succ_cons, List.map_cons]
        simp [List.append_assoc]

theorem collectLoop_succ_reached {σ : Type} (ops : DriverOps σ) (fuel : Nat)
    (st : DriverState σ) (cs : List Candidate)
    (hguard : st.new_urls_added < target_urls)
    (hs : ops.search (st.attempt + 1)
      (searchQueries.getD (st.query_index % searchQueries.length) "") = .ok cs)
    (hreach : target_urls ≤ (processBatch ops
      (searchQueries.getD (st.query_index % searchQueries.length) "") cs
      { st with sources_queried := st.sources_queried + 1,
                attempt := st.attempt + 1 }).new_urls_added) :
    collectLoop ops (fuel + 1) st =
      processBatch ops (searchQueries.getD (st.query_index % searchQueries.length) "") cs
        { st with sources_queried := st.sources_queried + 1,
                  attempt := st.attempt + 1 } := by
  simp only [collectLoop, if_pos hguard]
  rw [hs]
  exact if_pos hreach

/-- C5: with a first batch of at least 5 all-new, valid, storable
candidates, the driver stores exactly 5 entries, stops iterating the
batch at the 5th candidate (only 5 candidates are examined) and issues no
further query: the run ends after attempt 1, well before the 16-attempt
budget. -/
theorem collect_early_exit {σ : Type} (ops : DriverOps σ) (σ0 : σ) (cs : List Candidate)
    (hsearch : ops.search 1 "Claude Code SDK documentation" = .ok cs)
    (hlen : 5 ≤ cs.length)
    (hurl : ∀ c ∈ cs, c.url ≠ "")
    (hdup : ∀ (s : σ) c, c ∈ cs → (ops.isDup s c.url).1 = false)
    (hval : ∀ (s : σ) c, c ∈ cs → ops.validate s c.url = true)
    (hsto : ∀ (s : σ) c, c ∈ cs →
      (ops.store s c.url c "Claude Code SDK documentation").1 = true) :
    (collect_from_sources ops σ0).new_urls_added = 5 ∧
    (collect_from_sources ops σ0).attempt = 1 ∧
    (collect_from_sources ops σ0).sources_queried = 1 ∧
    (collect_from_sources ops σ0).urls_discovered = 5 ∧
    (collect_from_sources ops σ0).collected_urls = (cs.take 5).map (fun c => c.url) := by
  have hbatch := processBatch_all_new ops "Claude Code SDK documentation" cs
    { initState σ0 with
      sources_queried := (initState σ0 : DriverState σ).sources_queried + 1,
      attempt := (initState σ0 : DriverState σ).attempt + 1 }
    hurl hdup hval hsto (show (0 : Nat) < target_urls by decide)
    (show target_urls ≤ 0 + cs.length by
      show (5 : Nat) ≤ 0 + cs.length
      omega)
  have hcol : collect_from_sources ops σ0 =
      processBatch ops
        (searchQueries.getD
          ((initState σ0 : DriverState σ).query_index % searchQueries.length) "") cs
        { initState σ0 with
          sources_queried := (initState σ0 : DriverState σ).sources_queried + 1,
          attempt := (initState σ0 : DriverState σ).attempt + 1 } :=
    collectLoop_succ_reached ops 15 (initState σ0) cs
      (show (0 : Nat) < target_urls by decide) hsearch hbatch.1.ge
  refine ⟨?_, ?_, ?_, ?_, ?_⟩
  · rw [hcol]; exact hbatch.1
  · rw [hcol]; exact processBatch_attempt ops _ cs _
  · rw [hcol]; exact (processBatch_counters ops _ cs _).2.2
  · rw [hcol]; exact hbatch.2.1
  · rw [hcol]; exact hbatch.2.2

/-- Witness for `collect_early_exit`: a 7-candidate first batch, all new
and valid; exactly the first 5 are stored and the run stops. -/
theorem collect_early_exit_witness :
    (collect_from_sources
      (⟨fun _ _ => (false, []), fun _ _ => true, fun s _ _ _ => (true, s, []),
        fun _ _ => .ok [⟨"https://a.example/1", "", "", ""⟩, ⟨"https://a.example/2", "", "", ""⟩,
          ⟨"https://a.example/3", "", "", ""⟩, ⟨"https://a.example/4", "", "", ""⟩,
          ⟨"https://a.example/5", "", "", ""⟩, ⟨"https://a.example/6", "", "", ""⟩,
          ⟨"https://a.example/7", "", "", ""⟩]⟩ : DriverOps Unit) ()).new_urls_added = 5 ∧
    (collect_from_sources
      (⟨fun _ _ => (false, []), fun _ _ => true, fun s _ _ _ => (true, s, []),
        fun _ _ => .ok [⟨"https://a.example/1", "", "", ""⟩, ⟨"https://a.example/2", "", "", ""⟩,
          ⟨"https://a.example/3", "", "", ""⟩, ⟨"https://a.example/4", "", "", ""⟩,
          ⟨"https://a.example/5", "", "", ""⟩, ⟨"https://a.example/6", "", "", ""⟩,
          ⟨"https://a.example/7", "", "", ""⟩]⟩ : DriverOps Unit) ()).attempt = 1 ∧
    (collect_from_sources
      (⟨fun _ _ => (false, []), fun _ _ => true, fun s _ _ _ => (true, s, []),
        fun _ _ => .ok [⟨"https://a.example/1", "", "", ""⟩, ⟨"https://a.example/2", "", "", ""⟩,
          ⟨"https://a.example/3", "", "", ""⟩, ⟨"https://a.example/4", "", "", ""⟩,
          ⟨"https://a.example/5", "", "", ""⟩, ⟨"https://a.example/6", "", "", ""⟩,
          ⟨"https://a.example/7", "", "", ""⟩]⟩ : DriverOps Unit) ()).urls_discovered = 5 := by
  have h := collect_early_exit
    (⟨fun _ _ => (false, []), fun _ _ => true, fun s _ _ _ => (true, s, []),
      fun _ _ => .ok [⟨"https://a.example/1", "", "", ""⟩, ⟨"https://a.example/2", "", "", ""⟩,
        ⟨"https://a.example/3", "", "", ""⟩, ⟨"https://a.example/4", "", "", ""⟩,
        ⟨"https://a.example/5", "", "", ""⟩, ⟨"https://a.example/6", "", "", ""⟩,
        ⟨"https://a.example/7", "", "", ""⟩]⟩ : DriverOps Unit) ()
    _ rfl (by decide) (by decide)
    (fun _ _ _ => rfl) (fun _ _ _ => rfl) (fun _ _ _ => rfl)
  exact ⟨h.1, h.2.1, h.2.2.2.1⟩

/-!
Lemmas for the idempotence analysis of `normalize_url` (claim about
`normalize(normalize(u))`).
-/

theorem lowerChar_netlocDelim (c : Char) : netlocDelim (lowerChar c) = netlocDelim c := by
  unfold lowerChar
  split <;> rfl

theorem lowerChar_bracket_left (c : Char) : (lowerChar c = '[') ↔ (c = '[') := by
  unfold lowerChar
  split <;> simp_all

theorem lowerChar_bracket_right (c : Char) : (lowerChar c = ']') ↔ (c = ']') := by
  unfold lowerChar
  split <;> simp_all

theorem lowerChar_out (c : Char) :
    lowerChar c = c ∨ lowerChar c ∈
      ['a', 'b', 'c', 'd', 'e', 'f', 'g', 'h', 'i', 'j', 'k', 'l', 'm',
       'n', 'o', 'p', 'q', 'r', 's', 't', 'u', 'v', 'w', 'x', 'y', 'z'] := by
  unfold lowerChar
  split
  all_goals first
    | (left; rfl)
    | (right; decide)

theorem lowerChar_idem (c : Char) : lowerChar (lowerChar c) = lowerChar c := by
  rcases lowerChar_out c with h | h
  · rw [h]
    exact h
  · simp only [List.mem_cons, List.not_mem_nil, or_false] at h
    rcases h with h|h|h|h|h|h|h|h|h|h|h|h|h|h|h|h|h|h|h|h|h|h|h|h|h|h <;>
      (rw [h]; decide)

theorem lowerL_idem (l : Chars) : lowerL (lowerL l) = lowerL l := by
  unfold lowerL
  rw [List.map_map]
  exact List.map_congr_left (fun c _ => lowerChar_idem c)

theorem lowerL_elem_bracket_left (l : Chars) : (lowerL l).elem '[' = l.elem '[' := by
  rw [Bool.eq_iff_iff, List.elem_iff, List.elem_iff]
  constructor
  · intro hmem
    rcases List.mem_map.mp hmem with ⟨d, hd, hld⟩
    rwa [← (lowerChar_bracket_left d).mp hld]
  · intro hmem
    exact List.mem_map.mpr ⟨'[', hmem, by decide⟩

theorem lowerL_elem_bracket_right (l : Chars) : (lowerL l).elem ']' = l.elem ']' := by
  rw [Bool.eq_iff_iff, List.elem_iff, List.elem_iff]
  constructor
  · intro hmem
    rcases List.mem_map.mp hmem with ⟨d, hd, hld⟩
    rwa [← (lowerChar_bracket_right d).mp hld]
  · intro hmem
    exact List.mem_map.mpr ⟨']', hmem, by decide⟩

theorem mem_stripWww (c : Char) (l : Chars) (h : c ∈ stripWww l) : c ∈ l := by
  unfold stripWww at h
  split at h
  · exact List.mem_of_mem_drop h
  · exact h

theorem stripWww_elem_bracket_left (l : Chars) : (stripWww l).elem '[' = l.elem '[' := by
  unfold stripWww
  split
  · rename_i h4
    rw [Bool.eq_iff_iff, List.elem_iff, List.elem_iff]
    constructor
    · exact fun h => List.mem_of_mem_drop h
    · intro h
      rw [← List.take_append_drop 4 l] at h
      rcases List.mem_append.mp h with h | h
      · rw [h4] at h
        simp at h
      · exact h
  · rfl

theorem stripWww_elem_bracket_right (l : Chars) : (stripWww l).elem ']' = l.elem ']' := by
  unfold stripWww
  split
  · rename_i h4
    rw [Bool.eq_iff_iff, List.elem_iff, List.elem_iff]
    constructor
    · exact fun h => List.mem_of_mem_drop h
    · intro h
      rw [← List.take_append_drop 4 l] at h
      rcases List.mem_append.mp h with h | h
      · rw [h4] at h
        simp at h
      · exact h
  · rfl

theorem lowerL_stripWww_lowerL (l : Chars) :
    lowerL (stripWww (lowerL l)) = stripWww (lowerL l) := by
  unfold stripWww
  split
  · show lowerL ((lowerL l).drop 4) = (lowerL l).drop 4
    unfold lowerL
    rw [← List.map_drop, List.map_map]
    exact List.map_congr_left (fun c _ => lowerChar_idem c)
  · exact lowerL_idem l

theorem mem_rstripSlash (c : Char) (l : Chars) (h : c ∈ rstripSlash l) : c ∈ l := by
  unfold rstripSlash at h
  rw [List.mem_reverse] at h
  rw [← List.mem_reverse]
  exact ((List.dropWhile_sublist _).mem h)

theorem splitFirst_fst_mem (d : Char) (l : Chars) (c : Char)
    (h : c ∈ (splitFirst d l).1) : c ∈ l := by
  induction l with
  | nil => simp [splitFirst] at h
  | cons a as ih =>
    simp only [splitFirst] at h
    split at h
    · simp at h
    · simp only [List.mem_cons] at h
      rcases h with h | h
      · simp [h]
      · exact List.mem_cons_of_mem _ (ih h)

theorem splitFirst_snd_mem (d : Char) (l : Chars) (c : Char)
    (h : c ∈ (splitFirst d l).2) : c ∈ l := by
  induction l with
  | nil => simp [splitFirst] at h
  | cons a as ih =>
    simp only [splitFirst] at h
    split at h
    · exact List.mem_cons_of_mem _ h
    · exact List.mem_cons_of_mem _ (ih h)

theorem splitFirst_fst_ne (d : Char) (l : Chars) (c : Char)
    (h : c ∈ (splitFirst d l).1) : c ≠ d := by
  induction l with
  | nil => simp [splitFirst] at h
  | cons a as ih =>
    simp only [splitFirst] at h
    split at h
    · simp at h
    · rename_i hne
      simp only [List.mem_cons] at h
      rcases h with h | h
      · rw [h]; exact hne
      · exact ih h

theorem splitParams_fst_mem (x : Chars) (c : Char)
    (h : c ∈ (splitParams x).1) : c ∈ x := by
  unfold splitParams at h
  split at h
  · split at h
    · rcases hf : findFrom ';' (lastIdxOf '/' x) x with _ | i <;> rw [hf] at h
      · exact h
      · exact List.mem_of_mem_take h
    · exact splitFirst_fst_mem ';' x c h
  · exact h

theorem splitParams_snd_mem (x : Chars) (c : Char)
    (h : c ∈ (splitParams x).2) : c ∈ x := by
  unfold splitParams at h
  split at h
  · split at h
    · rcases hf : findFrom ';' (lastIdxOf '/' x) x with _ | i <;> rw [hf] at h
      · simp at h
      · exact List.mem_of_mem_drop h
    · exact splitFirst_snd_mem ';' x c h
  · simp at h

theorem splitFirst_of_not_mem (d : Char) (l : Chars) (h : d ∉ l) :
    splitFirst d l = (l, []) := by
  induction l with
  | nil => rfl
  | cons a as ih =>
    simp only [splitFirst]
    rw [if_neg (fun hx => h (by rw [hx]; simp))]
    rw [ih (fun hx => h (List.mem_cons_of_mem _ hx))]

theorem splitFirst_append_at (d : Char) (a b : Chars) (h : d ∉ a) :
    splitFirst d (a ++ d :: b) = (a, b) := by
  induction a with
  | nil => simp [splitFirst]
  | cons x xs ih =>
    simp only [List.cons_append, splitFirst]
    rw [if_neg (fun hx => h (by rw [hx]; simp))]
    simp only [List.append_eq]
    rw [ih (fun hx => h (List.mem_cons_of_mem _ hx))]

theorem takeWhile_dropWhile_append (f : Char → Bool) (a b : Chars)
    (ha : ∀ c ∈ a, f c = true)
    (hb : b = [] ∨ f (b.headD ' ') = false ∧ b ≠ []) :
    (a ++ b).takeWhile f = a ∧ (a ++ b).dropWhile f = b := by
  induction a with
  | nil =>
    rcases hb with hb | ⟨hb1, hb2⟩
    · subst hb
      exact ⟨rfl, rfl⟩
    · match b, hb2 with
      | c :: cs, _ =>
        simp only [List.nil_append, List.takeWhile_cons, List.dropWhile_cons]
        simp only [List.headD_cons] at hb1
        rw [hb1]
        exact ⟨rfl, rfl⟩
  | cons x xs ih =>
    have hx : f x = true := ha x (by simp)
    have ih2 := ih (fun c hc => ha c (List.mem_cons_of_mem _ hc))
    simp only [List.cons_append, List.takeWhile_cons, List.dropWhile_cons, hx]
    constructor <;> simp [ih2.1, ih2.2]

theorem findCharIdx_append_colon (pre body : Chars) (h : ':' ∉ pre) :
    findCharIdx ':' (pre ++ ':' :: body) = some pre.length := by
  induction pre with
  | nil => simp [findCharIdx]
  | cons x xs ih =>
    simp only [List.cons_append, findCharIdx]
    rw [if_neg (fun hx => h (by rw [← hx]; simp))]
    simp only [List.append_eq]
    rw [ih (fun hx => h (List.mem_cons_of_mem _ hx))]
    rfl

theorem splitScheme_https (body : Chars) :
    splitScheme (HTTPS ++ ':' :: body) = (HTTPS, body) := by
  unfold splitScheme
  rw [findCharIdx_append_colon HTTPS body (by decide)]
  have ht : (HTTPS ++ ':' :: body).take HTTPS.length = HTTPS := List.take_left _ _
  show (if 0 < HTTPS.length ∧ ((HTTPS ++ ':' :: body).headD ' ').isAlpha ∧
      ((HTTPS ++ ':' :: body).take HTTPS.length).all schemeChar then
    (lowerL ((HTTPS ++ ':' :: body).take HTTPS.length),
     (HTTPS ++ ':' :: body).drop (HTTPS.length + 1))
  else ([], HTTPS ++ ':' :: body)) = (HTTPS, body)
  rw [if_pos ?_]
  · have hd : (HTTPS ++ ':' :: body).drop (HTTPS.length + 1) = body := by
      have : HTTPS ++ ':' :: body = (HTTPS ++ [':']) ++ body := by simp
      rw [this, show HTTPS.length + 1 = (HTTPS ++ [':']).length by simp]
      exact List.drop_left _ _
    rw [ht, hd]
    rfl
  · refine ⟨by decide, ?_, ?_⟩
    · show ((HTTPS ++ ':' :: body).headD ' ').isAlpha
      rfl
    · rw [ht]
      decide

theorem urlparse_facts (s : Chars) (p : UrlParts) (hp : urlparseM s = .ok p) :
    (∀ c ∈ p.netloc, netlocDelim c = false) ∧
    (p.netloc.elem '[') = (p.netloc.elem ']') ∧
    (∀ c ∈ p.path, c ≠ '#' ∧ c ≠ '?') ∧
    (∀ c ∈ p.params, c ≠ '#' ∧ c ≠ '?') ∧
    (∀ c ∈ p.query, c ≠ '#') := by
  unfold urlparseM at hp
  cases husp : urlsplitM s with
  | error e =>
    rw [husp] at hp
    cases hp
  | ok tup =>
    obtain ⟨sc, nl, pathq, qy, fr⟩ := tup
    rw [husp] at hp
    simp only [Except.ok.injEq] at hp
    subst hp
    have hpathq : (∀ c ∈ pathq, c ≠ '#' ∧ c ≠ '?') ∧ (∀ c ∈ qy, c ≠ '#') ∧
        (∀ c ∈ nl, netlocDelim c = false) ∧ (nl.elem '[') = (nl.elem ']') := by
      unfold urlsplitM at husp
      simp only [] at husp
      split at husp
      · split at husp
        · cases husp
        · rename_i hbr
          simp only [Except.ok.injEq, Prod.mk.injEq] at husp
          obtain ⟨hsc, hnl, hpq, hqy, hfr⟩ := husp
          refine ⟨?_, ?_, ?_, ?_⟩
          · intro c hc
            rw [← hpq] at hc
            constructor
            · exact splitFirst_fst_ne '#' _ c
                (splitFirst_fst_mem '?' _ c hc)
            · exact splitFirst_fst_ne '?' _ c hc
          · intro c hc
            rw [← hqy] at hc
            exact splitFirst_fst_ne '#' _ c (splitFirst_snd_mem '?' _ c hc)
          · intro c hc
            rw [← hnl] at hc
            have := List.mem_takeWhile_imp hc
            simpa using this
          · rw [← hnl]
            simpa using hbr
      · simp only [Except.ok.injEq, Prod.mk.injEq] at husp
        obtain ⟨hsc, hnl, hpq, hqy, hfr⟩ := husp
        refine ⟨?_, ?_, ?_, ?_⟩
        · intro c hc
          rw [← hpq] at hc
          constructor
          · exact splitFirst_fst_ne '#' _ c (splitFirst_fst_mem '?' _ c hc)
          · exact splitFirst_fst_ne '?' _ c hc
        · intro c hc
          rw [← hqy] at hc
          exact splitFirst_fst_ne '#' _ c (splitFirst_snd_mem '?' _ c hc)
        · intro c hc
          rw [← hnl] at hc
          simp at hc
        · rw [← hnl]
          rfl
    refine ⟨hpathq.2.2.1, hpathq.2.2.2, ?_, ?_, hpathq.2.1⟩
    · intro c hc
      simp only at hc
      split at hc
      · exact hpathq.1 c (splitParams_fst_mem pathq c hc)
      · exact hpathq.1 c hc
    · intro c hc
      simp only at hc
      split at hc
      · exact hpathq.1 c (splitParams_snd_mem pathq c hc)
      · simp at hc

theorem slashAdjust_shape (u : Chars) :
    slashAdjust u = [] ∨ (slashAdjust u).headD ' ' = '/' := by
  unfold slashAdjust
  split
  · right
    rfl
  · rename_i h
    rcases u with _ | ⟨c, cs⟩
    · left
      rfl
    · right
      simp only [ne_eq, not_and, Decidable.not_not] at h
      exact h (by simp)

theorem slashAdjust_mem (u : Chars) (c : Char) (h : c ∈ slashAdjust u) :
    c = '/' ∨ c ∈ u := by
  unfold slashAdjust at h
  split at h
  · rcases List.mem_cons.mp h with h | h
    · exact Or.inl h
    · exact Or.inr h
  · exact Or.inr h

theorem slashAdjust_idem (u : Chars) : slashAdjust (slashAdjust u) = slashAdjust u := by
  rcases u with _ | ⟨c, cs⟩
  · rfl
  · by_cases hc : c = '/'
    · subst hc
      simp [slashAdjust]
    · simp [slashAdjust, hc]

theorem take2_shape (l : Chars) (h : l.take 2 = ['/', '/']) :
    l = '/' :: '/' :: l.drop 2 := by
  rcases l with _ | ⟨a, _ | ⟨b, t⟩⟩ <;> simp_all [List.take]

theorem takeWhile_nil_dropWhile (f : Char → Bool) (l : Chars)
    (h : l.takeWhile f = []) : l.dropWhile f = l := by
  rcases l with _ | ⟨c, cs⟩
  · rfl
  · simp only [List.takeWhile_cons, List.dropWhile_cons] at *
    split at h
    · simp at h
    · rename_i hf
      rw [if_neg hf]

theorem tw_dw_append_stop (f : Char → Bool) (t qp : Chars)
    (hqp : qp = [] ∨ f (qp.headD ' ') = false) :
    (t ++ qp).takeWhile f = t.takeWhile f ∧
    (t ++ qp).dropWhile f = t.dropWhile f ++ qp := by
  induction t with
  | nil =>
    rcases hqp with h | h
    · subst h
      exact ⟨rfl, rfl⟩
    · rcases qp with _ | ⟨c, cs⟩
      · exact ⟨rfl, rfl⟩
      · simp only [List.headD_cons] at h
        simp only [List.nil_append, List.takeWhile_cons, List.dropWhile_cons, h]
        exact ⟨rfl, rfl⟩
  | cons c cs ih =>
    by_cases hc : f c = true
    · simp only [List.cons_append, List.takeWhile_cons, List.dropWhile_cons, hc]
      simp only [if_true]
      exact ⟨by rw [ih.1], by rw [ih.2]⟩
    · rw [Bool.not_eq_true] at hc
      simp only [List.cons_append, List.takeWhile_cons, List.dropWhile_cons, hc]
      exact ⟨rfl, by simp⟩

theorem joinParams_facts (pa pr : Chars)
    (hpa : ∀ c ∈ pa, c ≠ '#' ∧ c ≠ '?')
    (hpr : ∀ c ∈ pr, c ≠ '#' ∧ c ≠ '?') :
    ∀ c ∈ joinParams pa pr, c ≠ '#' ∧ c ≠ '?' := by
  intro c hc
  unfold joinParams at hc
  split at hc
  · exact hpa c hc
  · rcases List.mem_append.mp hc with h | h
    · exact hpa c h
    · rcases List.mem_cons.mp h with h | h
      · rw [h]
        exact ⟨by decide, by decide⟩
      · exact hpr c h

theorem urlunparse_https (n pa pr qq : Chars) :
    urlunparseM ⟨HTTPS, n, pa, pr, qq, []⟩ =
      HTTPS ++ ':' ::
        ((if n ≠ [] ∨ (joinParams pa pr).take 2 ≠ ['/', '/'] then
            ('/' :: '/' :: n) ++ slashAdjust (joinParams pa pr)
          else joinParams pa pr) ++
         (if qq = [] then [] else '?' :: qq)) := by
  have h1 : (HTTPS : Chars) ≠ [] := by decide
  have h2 : HTTPS ∈ uses_netloc := by decide
  unfold urlunparseM
  by_cases hb : n ≠ [] ∨ (joinParams pa pr).take 2 ≠ ['/', '/'] <;>
    by_cases hq : qq = [] <;>
      simp [hb, hq, h1, h2, List.append_assoc]

theorem urlsplit_of_unparse (n pa pr qq : Chars)
    (hn : ∀ c ∈ n, netlocDelim c = false)
    (hpa : ∀ c ∈ pa, c ≠ '#' ∧ c ≠ '?')
    (hpr : ∀ c ∈ pr, c ≠ '#' ∧ c ≠ '?')
    (hqq : ∀ c ∈ qq, c ≠ '#') :
    urlsplitM (urlunparseM ⟨HTTPS, n, pa, pr, qq, []⟩) =
      (if n ≠ [] then
        (if (n.elem '[') != (n.elem ']') then Except.error "Invalid IPv6 URL"
         else .ok (HTTPS, n, slashAdjust (joinParams pa pr), qq, []))
      else if (joinParams pa pr).take 2 = ['/', '/'] then
        (if (((joinParams pa pr).drop 2).takeWhile (fun c => !netlocDelim c)).elem '[' !=
            (((joinParams pa pr).drop 2).takeWhile (fun c => !netlocDelim c)).elem ']' then
          Except.error "Invalid IPv6 URL"
         else .ok (HTTPS,
           ((joinParams pa pr).drop 2).takeWhile (fun c => !netlocDelim c),
           ((joinParams pa pr).drop 2).dropWhile (fun c => !netlocDelim c), qq, []))
      else .ok (HTTPS, [], slashAdjust (joinParams pa pr), qq, [])) := by
  have h0 : ∀ c ∈ joinParams pa pr, c ≠ '#' ∧ c ≠ '?' := joinParams_facts pa pr hpa hpr
  have hx : ∀ c ∈ slashAdjust (joinParams pa pr), c ≠ '#' ∧ c ≠ '?' := by
    intro c hc
    rcases slashAdjust_mem _ c hc with h | h
    · rw [h]
      exact ⟨by decide, by decide⟩
    · exact h0 c h
  have hqp : ∀ c ∈ (if qq = [] then ([] : Chars) else '?' :: qq), c ≠ '#' := by
    intro c hc
    split at hc
    · simp at hc
    · rcases List.mem_cons.mp hc with h | h
      · rw [h]
        decide
      · exact hqq c h
  have hqphead : (if qq = [] then ([] : Chars) else '?' :: qq) = [] ∨
      ((fun c => !netlocDelim c)
        ((if qq = [] then ([] : Chars) else '?' :: qq).headD ' ')) = false := by
    by_cases h : qq = []
    · left
      simp [h]
    · right
      simp [h]
      rfl
  rw [urlunparse_https]
  by_cases hcase1 : n ≠ [] ∨ (joinParams pa pr).take 2 ≠ ['/', '/']
  · rw [if_pos hcase1]
    have hsplit := takeWhile_dropWhile_append (fun c => !netlocDelim c) n
      (slashAdjust (joinParams pa pr) ++ (if qq = [] then ([] : Chars) else '?' :: qq))
      (fun c hc => by simp [hn c hc])
      (by
        rcases slashAdjust_shape (joinParams pa pr) with h | h
        · rw [h, List.nil_append]
          rcases hqphead with h2 | h2
          · left; exact h2
          · right
            refine ⟨h2, ?_⟩
            rcases hq : (if qq = [] then ([] : Chars) else '?' :: qq) with _ | ⟨c, cs⟩
            · rw [hq] at h2
              simp at h2
              exact absurd h2 (by decide)
            · simp
        · right
          rcases hs : slashAdjust (joinParams pa pr) with _ | ⟨c, cs⟩
          · rw [hs] at h
            simp at h
          · rw [hs] at h
            simp only [List.headD_cons] at h
            subst h
            refine ⟨by rfl, by simp⟩)
    have hfrag : splitFirst '#'
        (slashAdjust (joinParams pa pr) ++ (if qq = [] then ([] : Chars) else '?' :: qq)) =
        (slashAdjust (joinParams pa pr) ++ (if qq = [] then ([] : Chars) else '?' :: qq), []) := by
      apply splitFirst_of_not_mem
      intro hmem
      rcases List.mem_append.mp hmem with h | h
      · exact (hx '#' h).1 rfl
      · exact hqp '#' h rfl
    have hquery : splitFirst '?'
        (slashAdjust (joinParams pa pr) ++ (if qq = [] then ([] : Chars) else '?' :: qq)) =
        (slashAdjust (joinParams pa pr), qq) := by
      by_cases h : qq = []
      · simp only [h, if_true, List.append_nil]
        exact splitFirst_of_not_mem _ _ (fun hmem => (hx '?' hmem).2 rfl)
      · simp only [h, if_false]
        exact splitFirst_append_at '?' _ qq (fun hmem => (hx '?' hmem).2 rfl)
    unfold urlsplitM
    simp only []
    rw [show HTTPS ++ ':' ::
        (('/' :: '/' :: n) ++ slashAdjust (joinParams pa pr) ++
          (if qq = [] then ([] : Chars) else '?' :: qq)) =
      HTTPS ++ ':' ::
        ('/' :: '/' :: (n ++ (slashAdjust (joinParams pa pr) ++
          (if qq = [] then ([] : Chars) else '?' :: qq)))) by simp]
    rw [splitScheme_https]
    simp only [List.take_succ_cons, List.take_zero, List.drop_succ_cons, List.drop_zero,
      eq_self_iff_true, if_true]
    unfold splitNetloc
    rw [hsplit.1, hsplit.2, hfrag]
    simp only []
    rw [hquery]
    by_cases hn0 : n ≠ []
    · rw [if_pos hn0]
    · rw [if_neg hn0]
      push_neg at hn0
      subst hn0
      have ht2 : (joinParams pa pr).take 2 ≠ ['/', '/'] := by
        rcases hcase1 with h | h
        · exact absurd rfl h
        · exact h
      rw [if_neg ht2]
      rfl
  · push_neg at hcase1
    obtain ⟨hn0, ht2⟩ := hcase1
    subst hn0
    rw [if_neg (by simp [ht2])]
    have hu0 := take2_shape _ ht2
    have htfacts : ∀ c ∈ (joinParams pa pr).drop 2, c ≠ '#' ∧ c ≠ '?' :=
      fun c hc => h0 c (List.mem_of_mem_drop hc)
    have hsplit := tw_dw_append_stop (fun c => !netlocDelim c)
      ((joinParams pa pr).drop 2) (if qq = [] then ([] : Chars) else '?' :: qq)
      (by
        rcases hqphead with h | h
        · left; exact h
        · right; exact h)
    have hdwfacts : ∀ c ∈ ((joinParams pa pr).drop 2).dropWhile (fun c => !netlocDelim c),
        c ≠ '#' ∧ c ≠ '?' :=
      fun c hc => htfacts c (((List.dropWhile_sublist _).mem hc))
    have hfrag : splitFirst '#'
        (((joinParams pa pr).drop 2).dropWhile (fun c => !netlocDelim c) ++
          (if qq = [] then ([] : Chars) else '?' :: qq)) =
        (((joinParams pa pr).drop 2).dropWhile (fun c => !netlocDelim c) ++
          (if qq = [] then ([] : Chars) else '?' :: qq), []) := by
      apply splitFirst_of_not_mem
      intro hmem
      rcases List.mem_append.mp hmem with h | h
      · exact (hdwfacts '#' h).1 rfl
      · exact hqp '#' h rfl
    have hquery : splitFirst '?'
        (((joinParams pa pr).drop 2).dropWhile (fun c => !netlocDelim c) ++
          (if qq = [] then ([] : Chars) else '?' :: qq)) =
        (((joinParams pa pr).drop 2).dropWhile (fun c => !netlocDelim c), qq) := by
      by_cases h : qq = []
      · simp only [h, if_true, List.append_nil]
        exact splitFirst_of_not_mem _ _ (fun hmem => (hdwfacts '?' hmem).2 rfl)
      · simp only [h, if_false]
        exact splitFirst_append_at '?' _ qq (fun hmem => (hdwfacts '?' hmem).2 rfl)
    unfold urlsplitM
    simp only []
    rw [show HTTPS ++ ':' ::
        (joinParams pa pr ++ (if qq = [] then ([] : Chars) else '?' :: qq)) =
      HTTPS ++ ':' ::
        ('/' :: '/' :: ((joinParams pa pr).drop 2 ++
          (if qq = [] then ([] : Chars) else '?' :: qq))) by
        conv_lhs => rw [hu0]
        simp]
    rw [splitScheme_https]
    simp only [List.take_succ_cons, List.take_zero, List.drop_succ_cons, List.drop_zero,
      eq_self_iff_true, if_true]
    unfold splitNetloc
    rw [hsplit.1, hsplit.2, hfrag]
    simp only []
    rw [hquery, if_pos ht2]
    rfl

theorem dropWhile_head_false (f : Char → Bool) (l : Chars) (c : Char) (cs : Chars)
    (h : l.dropWhile f = c :: cs) : f c = false := by
  induction l with
  | nil => cases h
  | cons a t ih =>
    rw [List.dropWhile_cons] at h
    split at h
    · exact ih h
    · rename_i hf
      obtain ⟨rfl, rfl⟩ := List.cons.injEq .. ▸ h
      simpa using hf

theorem slashAdjust_fix (l : Chars) (h : l = [] ∨ l.headD ' ' = '/') :
    slashAdjust l = l := by
  unfold slashAdjust
  rcases h with h | h
  · subst h
    rfl
  · rw [if_neg]
    intro hcon
    exact hcon.2 h

theorem netlocDelim_cases (c : Char) (h : netlocDelim c = true) :
    c = '/' ∨ c = '?' ∨ c = '#' := by
  unfold netlocDelim at h
  simp only [Bool.or_eq_true, beq_iff_eq] at h
  tauto

theorem normalize_of_parse (s : String) (q : UrlParts) (h : urlparseM s.data = .ok q) :
    normalizeStr s = String.mk (urlunparseM (normParts q)) := by
  unfold normalizeStr normalize_url
  rw [h]

theorem normalize_of_error (s : String) (e : String) (h : urlparseM s.data = .error e) :
    normalizeStr s = s := by
  unfold normalizeStr normalize_url
  rw [h]

theorem urlparse_of_split (s : Chars) (sc nl pq qy fr : Chars)
    (hsp : urlsplitM s = .ok (sc, nl, pq, qy, fr)) (hsc : sc ∈ uses_params) :
    urlparseM s = .ok ⟨sc, nl, (splitParams pq).1, (splitParams pq).2, qy, fr⟩ := by
  unfold urlparseM
  rw [hsp]
  simp only []
  rw [if_pos hsc]

theorem reSplitStable_ok (s : String) (sc nl pq qy fr : Chars)
    (hsp : urlsplitM s.data = .ok (sc, nl, pq, qy, fr))
    (h : reSplitStable s = true) :
    lowerL nl = nl ∧ stripWww nl = nl ∧
    rstripSlash (splitParams pq).1 = (splitParams pq).1 ∧
    joinParams (splitParams pq).1 (splitParams pq).2 = pq ∧
    (nl = [] → pq.take 2 ≠ ['/', '/']) := by
  unfold reSplitStable at h
  rw [hsp] at h
  simp only [Bool.and_eq_true, beq_iff_eq, Bool.not_eq_true'] at h
  obtain ⟨⟨⟨⟨c1, c2⟩, c3⟩, c4⟩, c5⟩ := h
  refine ⟨c1, c2, c3, c4, ?_⟩
  intro hnl ht2
  rw [Bool.and_eq_false_iff] at c5
  rcases c5 with c5 | c5
  · rw [beq_eq_false_iff_ne] at c5
    exact c5 hnl
  · rw [beq_eq_false_iff_ne] at c5
    exact c5 ht2

/-- C8 (corrected): `normalize_url` is not idempotent in general (see the
counterexample theorem), but it is idempotent on every URL whose normal
form is re-split-stable in the sense of `reSplitStable`: re-splitting the
normalized string yields a host that is already lower-case with no further
leading `www.`, a path portion whose params split re-joins to itself and
whose path part carries no trailing slash, and not an empty host followed
by a path beginning with `//`. -/
theorem normalize_url_idem_amended (u : String)
    (h : reSplitStable (normalizeStr u) = true) :
    normalizeStr (normalizeStr u) = normalizeStr u := by
  cases hp : urlparseM u.data with
  | error e =>
    have hS := normalize_of_error u e hp
    rw [hS]
    exact hS
  | ok p =>
    obtain ⟨hn0, hbr0, hpa0, hpr0, hqq0⟩ := urlparse_facts u.data p hp
    have hS := normalize_of_parse u p hp
    set n := stripWww (lowerL p.netloc) with hn_def
    set pa := rstripSlash p.path with hpa_def
    have hdata : (normalizeStr u).data =
        urlunparseM ⟨HTTPS, n, pa, p.params, p.query, []⟩ := by
      rw [hS]
      rfl
    have hn : ∀ c ∈ n, netlocDelim c = false := by
      intro c hc
      rw [hn_def] at hc
      have hc2 := mem_stripWww c _ hc
      obtain ⟨c0, hc0, rfl⟩ := List.mem_map.mp hc2
      rw [lowerChar_netlocDelim]
      exact hn0 c0 hc0
    have hbr : n.elem '[' = n.elem ']' := by
      rw [hn_def, stripWww_elem_bracket_left, stripWww_elem_bracket_right,
        lowerL_elem_bracket_left, lowerL_elem_bracket_right]
      exact hbr0
    have hpa2 : ∀ c ∈ pa, c ≠ '#' ∧ c ≠ '?' := by
      intro c hc
      rw [hpa_def] at hc
      exact hpa0 c (mem_rstripSlash c _ hc)
    have hre := urlsplit_of_unparse n pa p.params p.query hn hpa2 hpr0 hqq0
    set J := joinParams pa p.params with hJ_def
    set X := slashAdjust J with hX_def
    have hXfix : slashAdjust X = X := by
      rw [hX_def]
      exact slashAdjust_idem J
    by_cases hcn : n ≠ []
    · rw [if_pos hcn, hbr, bne_self_eq_false] at hre
      simp only [Bool.false_eq_true, if_false] at hre
      have hsp : urlsplitM (normalizeStr u).data = .ok (HTTPS, n, X, p.query, []) := by
        rw [hdata]
        exact hre
      obtain ⟨c1, c2, c3, c4, c5⟩ := reSplitStable_ok _ _ _ _ _ _ hsp h
      have hp2 := urlparse_of_split _ _ _ _ _ _ hsp (by decide)
      have hS2 := normalize_of_parse _ _ hp2
      rw [hS2, hS]
      congr 1
      show urlunparseM ⟨HTTPS, stripWww (lowerL n), rstripSlash (splitParams X).1,
          (splitParams X).2, p.query, []⟩ =
        urlunparseM ⟨HTTPS, n, pa, p.params, p.query, []⟩
      rw [c1, c2, c3, urlunparse_https, urlunparse_https, c4]
      rw [if_pos (Or.inl hcn), if_pos (Or.inl hcn), hXfix]
    · rw [if_neg hcn] at hre
      push_neg at hcn
      by_cases ht2 : J.take 2 = ['/', '/']
      · rw [if_pos ht2] at hre
        by_cases hbr2 : (((J.drop 2).takeWhile (fun c => !netlocDelim c)).elem '[' !=
            ((J.drop 2).takeWhile (fun c => !netlocDelim c)).elem ']') = true
        · rw [if_pos hbr2] at hre
          have hup : urlparseM (normalizeStr u).data = .error "Invalid IPv6 URL" := by
            unfold urlparseM
            rw [hdata, hre]
          have hS2 := normalize_of_error _ _ hup
          rw [hS2]
        · rw [if_neg hbr2] at hre
          set tw := (J.drop 2).takeWhile (fun c => !netlocDelim c) with htw_def
          set dw := (J.drop 2).dropWhile (fun c => !netlocDelim c) with hdw_def
          have hsp : urlsplitM (normalizeStr u).data = .ok (HTTPS, tw, dw, p.query, []) := by
            rw [hdata]
            exact hre
          obtain ⟨c1, c2, c3, c4, c5⟩ := reSplitStable_ok _ _ _ _ _ _ hsp h
          have hp2 := urlparse_of_split _ _ _ _ _ _ hsp (by decide)
          have hS2 := normalize_of_parse _ _ hp2
          have hdwJ : ∀ c ∈ dw, c ≠ '#' ∧ c ≠ '?' := by
            intro c hc
            rw [hdw_def] at hc
            exact joinParams_facts pa p.params hpa2 hpr0 c
              (List.mem_of_mem_drop ((List.dropWhile_sublist _).mem hc))
          have hdwshape : dw = [] ∨ dw.headD ' ' = '/' := by
            cases he : (J.drop 2).dropWhile (fun c => !netlocDelim c) with
            | nil =>
              left
              rw [hdw_def, he]
            | cons c cs =>
              right
              have hf := dropWhile_head_false _ _ c cs he
              have hfc : netlocDelim c = true := by simpa using hf
              have hcmem : c ∈ dw := by
                rw [hdw_def, he]
                exact List.mem_cons_self c cs
              rcases netlocDelim_cases c hfc with h1 | h1 | h1
              · rw [hdw_def, he, h1]
                rfl
              · exact absurd h1 (hdwJ c hcmem).2
              · exact absurd h1 (hdwJ c hcmem).1
          have hdwfix : slashAdjust dw = dw := slashAdjust_fix dw hdwshape
          have hcond : tw ≠ [] ∨ dw.take 2 ≠ ['/', '/'] := by
            by_cases htw : tw = []
            · exact Or.inr (c5 htw)
            · exact Or.inl htw
          have hJt : J = '/' :: '/' :: (J.drop 2) := take2_shape J ht2
          have htwdw : tw ++ dw = J.drop 2 := by
            rw [htw_def, hdw_def]
            exact List.takeWhile_append_dropWhile _ _
          rw [hS2, hS]
          congr 1
          show urlunparseM ⟨HTTPS, stripWww (lowerL tw), rstripSlash (splitParams dw).1,
              (splitParams dw).2, p.query, []⟩ =
            urlunparseM ⟨HTTPS, n, pa, p.params, p.query, []⟩
          rw [c1, c2, c3, urlunparse_https, urlunparse_https, c4]
          rw [if_pos hcond, hdwfix,
            if_neg (show ¬(n ≠ [] ∨ J.take 2 ≠ ['/', '/']) by simp [hcn, ht2])]
          rw [show ('/' :: '/' :: tw) ++ dw = J from by
            rw [List.cons_append, List.cons_append, htwdw, ← hJt]]
      · rw [if_neg ht2] at hre
        have hsp : urlsplitM (normalizeStr u).data = .ok (HTTPS, [], X, p.query, []) := by
          rw [hdata]
          exact hre
        obtain ⟨c1, c2, c3, c4, c5⟩ := reSplitStable_ok _ _ _ _ _ _ hsp h
        have hp2 := urlparse_of_split _ _ _ _ _ _ hsp (by decide)
        have hS2 := normalize_of_parse _ _ hp2
        have hXt2 : X.take 2 ≠ ['/', '/'] := c5 rfl
        rw [hS2, hS]
        congr 1
        show urlunparseM ⟨HTTPS, stripWww (lowerL []), rstripSlash (splitParams X).1,
            (splitParams X).2, p.query, []⟩ =
          urlunparseM ⟨HTTPS, n, pa, p.params, p.query, []⟩
        rw [show stripWww (lowerL ([] : Chars)) = ([] : Chars) from rfl, c3,
          urlunparse_https, urlunparse_https, c4]
        rw [if_pos (Or.inr hXt2), if_pos (Or.inr ht2), hXfix, ← hX_def, hcn]

/-- C8 counterexample: `normalize_url` is not idempotent as claimed: one
pass over `https://www.www.com` yields `https://www.com`, whose renewed
normalization strips a further `www.` and yields `https://com`. -/
theorem normalize_url_idem_counterexample :
    normalizeStr (normalizeStr "https://www.www.com") ≠
      normalizeStr "https://www.www.com" ∧
    normalizeStr "https://www.www.com" = "https://www.com" ∧
    normalizeStr "https://www.com" = "https://com" := by
  refine ⟨?_, by decide, by decide⟩
  decide

theorem normalize_url_idem_amended_witness :
    reSplitStable (normalizeStr "https://a.com/x/") = true ∧
    normalizeStr (normalizeStr "https://a.com/x/") = normalizeStr "https://a.com/x/" :=
  ⟨by decide, normalize_url_idem_amended "https://a.com/x/" (by decide)⟩
